import Mathlib

set_option maxHeartbeats 1000000
set_option maxRecDepth 4000
set_option linter.unusedVariables false

/-!
Verification of the ChromaFM backend (Express server, single source file).
The development shallowly embeds the album color-bucket ranking and backfill
engine: candidate scoring, dominant-color extraction, bucket classification,
per-bucket selection, the staged backfill pipeline, uniqueness enforcement,
and the cache / single-flight layers.

Modelling conventions:
  * JS numbers are modelled as exact rationals (scores, confidences, hue
    values); 32-bit integer operations (hash) as Nat arithmetic mod 2^32.
  * Async effects are modelled with an explicit environment (oracle) of the
    external Spotify / image fetches, each returning Except: Except.error
    models a rejected promise / thrown error.  A JS catch handler maps the
    error case back to a value.
  * Mutable objects are modelled by value; enrichment returns updated lists.
  * JS Array.prototype.sort is stable (ES2019); it is modelled by a stable
    insertion sort on the same comparator.
-/

/-- Stable insertion of one element: x is placed before the first y with
le x y (comparator at most 0), matching a stable ascending sort. -/
def insertStable {α : Type} (le : α → α → Bool) (x : α) : List α → List α
  | [] => [x]
  | y :: ys => if le x y then x :: y :: ys else y :: insertStable le x ys

/-- Stable sort by insertion; models JS Array.prototype.sort with a
consistent comparator (stable since ES2019). -/
def sortStable {α : Type} (le : α → α → Bool) : List α → List α
  | [] => []
  | x :: xs => insertStable le x (sortStable le xs)

theorem mem_insertStable {α : Type} (le : α → α → Bool) (x a : α) :
    ∀ l : List α, a ∈ insertStable le x l ↔ a = x ∨ a ∈ l := by
  intro l
  induction l with
  | nil => simp [insertStable]
  | cons y ys ih =>
    simp only [insertStable]
    split
    · simp [List.mem_cons]
    · simp only [List.mem_cons, ih]
      tauto

theorem getD_get?_mem {α : Type} (l : List α) (i : Nat) (d : α) (hd : d ∈ l) :
    (l.get? i).getD d ∈ l := by
  cases hg : l.get? i with
  | none => simpa using hd
  | some x => simpa using List.get?_mem hg

theorem mem_sortStable {α : Type} (le : α → α → Bool) (a : α) :
    ∀ l : List α, a ∈ sortStable le l ↔ a ∈ l := by
  intro l
  induction l with
  | nil => simp [sortStable]
  | cons x xs ih => simp [sortStable, mem_insertStable, ih]

/-- UTF-16 code units of a string (JS charCodeAt): code points beyond the
basic plane become a surrogate pair. -/
def utf16CodeUnits (s : String) : List Nat :=
  s.data.foldr
    (fun c acc =>
      let n := c.toNat
      if n < 65536 then n :: acc
      else (55296 + (n - 65536) / 1024) :: (56320 + (n - 65536) % 1024) :: acc)
    []

/-- Source hashStringToInt: FNV-1a over UTF-16 code units with Math.imul
(32-bit multiply) and a final unsigned shift; bit patterns tracked as
naturals below 2^32. -/
def hashStringToInt (s : String) : Nat :=
  (utf16CodeUnits s).foldl
    (fun h c => (Nat.xor h c) * 16777619 % 4294967296) 2166136261

/-- Source rankWeight: quadratic decay by position inside a window. -/
def rankWeight (index total : ℚ) : ℚ :=
  let t : ℚ := if total ≤ 1 then 1 else index / (total - 1)
  let w : ℚ := 1 - t
  w * w

/-- The ten bucket labels, as an enumeration (the source uses the string
literals of COLOR_ORDER). -/
inductive Color
  | red | orange | yellow | green | blue | purple | pink | white | grey | black
deriving DecidableEq, Repr

/-- Source COLOR_ORDER: the fixed scan order over bucket labels. -/
def COLOR_ORDER : List Color :=
  [.red, .orange, .yellow, .green, .blue, .purple, .pink, .white, .grey, .black]

/-- String form of a label, as it appears in the source. -/
def colorName : Color → String
  | .red => "red"
  | .orange => "orange"
  | .yellow => "yellow"
  | .green => "green"
  | .blue => "blue"
  | .purple => "purple"
  | .pink => "pink"
  | .white => "white"
  | .grey => "grey"
  | .black => "black"

theorem mem_COLOR_ORDER (c : Color) : c ∈ COLOR_ORDER := by
  cases c <;> simp [COLOR_ORDER]

/-- An album candidate object.  Fields the JS code sometimes leaves absent
(appearances, confidence, hex, image, total_tracks, source) are Options;
score and count are set by every construction site, so they are plain
rationals (the defensive typeof checks of the source always see numbers). -/
structure Album where
  id : String := ""
  name : String := ""
  artist : String := ""
  image : Option String := none
  total_tracks : Option Int := none
  score : ℚ := 0
  appearances : Option ℚ := none
  count : ℚ := 0
  hex : Option String := none
  confidence : Option ℚ := none
  source : Option String := none
deriving DecidableEq, Repr

/-- Source getAppearances: a missing appearances field reads as 0. -/
def getAppearances (a : Album) : ℚ := a.appearances.getD 0

/-- Source cmpAlbumStrength, over possibly-null albums (a null field or
album reads as 0 through the typeof checks).  Negative means the first
argument is the stronger album. -/
def cmpAlbumStrength (a b : Option Album) : ℚ :=
  let sa : ℚ := match a with | some x => x.score | none => 0
  let sb : ℚ := match b with | some x => x.score | none => 0
  if sb ≠ sa then sb - sa
  else
    let ca : ℚ := match a with | some x => x.confidence.getD 0 | none => 0
    let cb : ℚ := match b with | some x => x.confidence.getD 0 | none => 0
    if cb ≠ ca then cb - ca
    else
      let na : ℚ := match a with | some x => x.count | none => 0
      let nb : ℚ := match b with | some x => x.count | none => 0
      nb - na

/-- Source pickPreferBestOrVariety: dominance lock-in, otherwise a
deterministic hash pick inside the variety window.  The fallback argument
of getD is never used: idx < window ≤ length. -/
def pickPreferBestOrVariety (list : List Album) (n : Nat) (key : String)
    (dominanceMargin : ℚ) : Option Album :=
  match list with
  | [] => none
  | [a] => some a
  | best :: runnerUp :: rest =>
    let bestS := best.score
    let upS := runnerUp.score
    if upS ≤ 0 ∨ upS * (1 + dominanceMargin) ≤ bestS then some best
    else
      let window := max 1 (min n (rest.length + 2))
      let idx := hashStringToInt key % window
      some (((best :: runnerUp :: rest).get? idx).getD best)

/-- Source pickTopForColor: an appearance gap of at least 2 between the two
leading candidates overrides the score-based rules. -/
def pickTopForColor (list : List Album) (color : Color) (n : Nat) (key : String)
    (dominanceMargin : ℚ) : Option Album :=
  match list with
  | [] => none
  | [a] => some a
  | a0 :: a1 :: rest =>
    let d := |getAppearances a0 - getAppearances a1|
    if 2 ≤ d then some (if getAppearances a1 ≤ getAppearances a0 then a0 else a1)
    else pickPreferBestOrVariety (a0 :: a1 :: rest) n key dominanceMargin

theorem pickPreferBestOrVariety_mem (list : List Album) (n : Nat) (key : String)
    (m : ℚ) (a : Album) (h : pickPreferBestOrVariety list n key m = some a) :
    a ∈ list := by
  match list with
  | [] => simp [pickPreferBestOrVariety] at h
  | [b] =>
    simp only [pickPreferBestOrVariety, Option.some.injEq] at h
    simp [← h]
  | best :: runnerUp :: rest =>
    simp only [pickPreferBestOrVariety] at h
    split at h
    · cases h; exact List.mem_cons_self _ _
    · rw [Option.some.injEq] at h
      rw [← h]
      exact getD_get?_mem _ _ _ (List.mem_cons_self _ _)

theorem pickTopForColor_mem (list : List Album) (c : Color) (n : Nat)
    (key : String) (m : ℚ) (a : Album)
    (h : pickTopForColor list c n key m = some a) : a ∈ list := by
  match list with
  | [] => simp [pickTopForColor] at h
  | [b] =>
    simp only [pickTopForColor, Option.some.injEq] at h
    simp [← h]
  | a0 :: a1 :: rest =>
    simp only [pickTopForColor] at h
    split at h
    · cases h
      split <;> simp
    · exact pickPreferBestOrVariety_mem _ _ _ _ _ h

/-- C7 counterexample: at total = 1 the source returns weight 0 for the
first position, not 1 (the branch total <= 1 forces t = 1). -/
theorem C7_rankWeight_total_one_cex :
    rankWeight 0 1 = 0 ∧ rankWeight 0 1 ≠ 1 := by
  norm_num [rankWeight]

/-- C7 (amended): for every total >= 2 and 0 <= index < total, rankWeight
decays monotonically and quadratically from 1 at index 0 to 0 at index
total - 1; for total = 1 the source returns 0 everywhere (see the
counterexample). -/
theorem C7_rankWeight_decay (total i j : ℕ) (h2 : 2 ≤ total) (hj : j < total)
    (hij : i ≤ j) :
    rankWeight 0 (total : ℚ) = 1 ∧
    rankWeight ((total : ℚ) - 1) (total : ℚ) = 0 ∧
    rankWeight (j : ℚ) (total : ℚ) ≤ rankWeight (i : ℚ) (total : ℚ) := by
  have hT : (2 : ℚ) ≤ (total : ℚ) := by exact_mod_cast h2
  have hgt : ¬ ((total : ℚ) ≤ 1) := by linarith
  have hpos : (0 : ℚ) < (total : ℚ) - 1 := by linarith
  have hne : ((total : ℚ) - 1) ≠ 0 := ne_of_gt hpos
  refine ⟨?_, ?_, ?_⟩
  · simp [rankWeight, hgt]
  · simp [rankWeight, hgt, div_self hne]
  · simp only [rankWeight, hgt, if_false]
    have hji : (i : ℚ) ≤ (j : ℚ) := by exact_mod_cast hij
    have hjT : (j : ℚ) ≤ (total : ℚ) - 1 := by
      have : (j : ℚ) + 1 ≤ (total : ℚ) := by exact_mod_cast hj
      linarith
    have hdivj : (j : ℚ) / ((total : ℚ) - 1) ≤ 1 := by
      rw [div_le_one hpos]; linarith
    have hdivji : (i : ℚ) / ((total : ℚ) - 1) ≤ (j : ℚ) / ((total : ℚ) - 1) := by
      gcongr
    have h0 : 0 ≤ 1 - (j : ℚ) / ((total : ℚ) - 1) := by linarith
    have hle : 1 - (j : ℚ) / ((total : ℚ) - 1) ≤ 1 - (i : ℚ) / ((total : ℚ) - 1) := by
      linarith
    exact mul_le_mul hle hle h0 (by linarith)

/-- C7 witness at total = 3, i = 0, j = 2. -/
theorem C7_rankWeight_decay_witness :
    2 ≤ 3 ∧ 2 < 3 ∧ 0 ≤ 2 ∧
    (rankWeight 0 ((3 : ℕ) : ℚ) = 1 ∧
     rankWeight (((3 : ℕ) : ℚ) - 1) ((3 : ℕ) : ℚ) = 0 ∧
     rankWeight (((2 : ℕ)) : ℚ) ((3 : ℕ) : ℚ) ≤ rankWeight (((0 : ℕ)) : ℚ) ((3 : ℕ) : ℚ)) :=
  ⟨by norm_num, by norm_num, by norm_num,
   C7_rankWeight_decay 3 0 2 (by norm_num) (by norm_num) (by norm_num)⟩

/-- C4: whenever the appearance counts of the two leading candidates differ
by at least 2, pickTopForColor returns the candidate with more appearances,
bypassing the dominance-margin and variety rules entirely. -/
theorem C4_appearance_gap (a0 a1 : Album) (rest : List Album) (color : Color)
    (n : Nat) (key : String) (margin : ℚ)
    (hgap : 2 ≤ |getAppearances a0 - getAppearances a1|) :
    pickTopForColor (a0 :: a1 :: rest) color n key margin =
      some (if getAppearances a1 ≤ getAppearances a0 then a0 else a1) ∧
    (getAppearances a1 < getAppearances a0 →
      pickTopForColor (a0 :: a1 :: rest) color n key margin = some a0) ∧
    (getAppearances a0 < getAppearances a1 →
      pickTopForColor (a0 :: a1 :: rest) color n key margin = some a1) := by
  have hmain : pickTopForColor (a0 :: a1 :: rest) color n key margin =
      some (if getAppearances a1 ≤ getAppearances a0 then a0 else a1) := by
    simp only [pickTopForColor, if_pos hgap]
  refine ⟨hmain, ?_, ?_⟩
  · intro hlt
    rw [hmain, if_pos (le_of_lt hlt)]
  · intro hlt
    rw [hmain, if_neg (not_le_of_lt hlt)]

/-- Scenario album A of the C4 test case. -/
def albA : Album := { id := "A", score := 3, appearances := some 5 }

/-- Scenario album B of the C4 test case. -/
def albB : Album := { id := "B", score := 29/10, appearances := some 2 }

/-- C4 witness: the spec scenario (scores 3.0 and 2.9, appearances 5 and 2,
dominance margin 0.1) picks album A through the appearance-gap rule. -/
theorem C4_appearance_gap_witness :
    2 ≤ |getAppearances albA - getAppearances albB| ∧
    pickTopForColor [albA, albB] Color.red 4 "short_term:red:primary" (1/10) =
      some albA :=
  ⟨by norm_num [getAppearances, albA, albB],
   by
    have h := C4_appearance_gap albA albB [] Color.red 4 "short_term:red:primary"
      (1/10) (by norm_num [getAppearances, albA, albB])
    exact h.2.1 (by norm_num [getAppearances, albA, albB])⟩

/-! ## Color conversion and bucket classification -/

/-- Truncation toward zero on rationals (JS number-to-integer rounding used
by the remainder operator). -/
def ratTrunc (q : ℚ) : ℤ := if q < 0 then ⌈q⌉ else ⌊q⌋

/-- JS remainder operator on numbers: x % y = x - y * trunc(x / y). -/
def jsRem (x y : ℚ) : ℚ := x - y * (ratTrunc (x / y) : ℚ)

def isHexDigitChar (c : Char) : Bool :=
  c.isDigit || ('a' ≤ c && c ≤ 'f') || ('A' ≤ c && c ≤ 'F')

def hexDigitVal (c : Char) : Nat :=
  if c.isDigit then c.toNat - 48
  else if 'a' ≤ c && c ≤ 'f' then c.toNat - 87
  else c.toNat - 55

/-- JS parseInt(s, 16): skip leading whitespace, optional sign, optional
0x prefix, then the longest hexadecimal digit prefix; none models NaN.
Exact for magnitudes below 2^53 (larger parses round in JS doubles; such
inputs do not occur for color strings). -/
def jsParseIntHex (s : String) : Option Int :=
  let cs := s.data.dropWhile (fun c => c.isWhitespace)
  let signed : Int × List Char :=
    match cs with
    | '-' :: rest => (-1, rest)
    | '+' :: rest => (1, rest)
    | _ => (1, cs)
  let body : List Char :=
    match signed.2 with
    | '0' :: x :: rest => if x = 'x' ∨ x = 'X' then rest else '0' :: x :: rest
    | other => other
  let ds := body.takeWhile isHexDigitChar
  if ds.isEmpty then none
  else some (signed.1 * (ds.foldl (fun acc c => acc * 16 + hexDigitVal c) 0 : Nat))

/-- Bit pattern of ToInt32/ToUint32 of an integer, as a natural below 2^32. -/
def toUint32 (i : Int) : Nat := (i % 4294967296).toNat

/-- JS "#".replace of the source hexToRgb: remove the first '#' only. -/
def removeFirstHash : List Char → List Char
  | [] => []
  | c :: cs => if c = '#' then cs else c :: removeFirstHash cs

/-- Source hexToRgb.  The bitwise extractions (n >> 16) & 255, (n >> 8) &
255, n & 255 on the ToInt32 of the parse equal base-256 digit extraction on
the unsigned 32-bit pattern; a NaN parse makes every extraction 0. -/
def hexToRgb (hex : String) : Nat × Nat × Nat :=
  let clean : String := String.mk (removeFirstHash hex.data)
  let n : Nat :=
    match jsParseIntHex clean with
    | none => 0
    | some i => toUint32 i
  (n / 65536 % 256, n / 256 % 256, n % 256)

structure Hsv where
  h : ℚ
  s : ℚ
  v : ℚ
deriving DecidableEq, Repr

/-- Source rgbToHsv (inputs on the 0..255 scale). -/
def rgbToHsv (r g b : ℚ) : Hsv :=
  let r := r / 255
  let g := g / 255
  let b := b / 255
  let mx := max r (max g b)
  let mn := min r (min g b)
  let d := mx - mn
  let hh : ℚ :=
    if d ≠ 0 then
      let h1 : ℚ :=
        if mx = r then jsRem ((g - b) / d) 6
        else if mx = g then (b - r) / d + 2
        else (r - g) / d + 4
      let h2 := h1 * 60
      if h2 < 0 then h2 + 360 else h2
    else 0
  let s := if mx = 0 then 0 else d / mx
  Hsv.mk hh s mx

/-- Source hexToSimpleBucket: black / white / grey cut-offs in priority
order, then contiguous hue arcs wrapping at 0/360. -/
def hexToSimpleBucket (hex : String) : Color :=
  let rgb := hexToRgb hex
  let hsv := rgbToHsv (rgb.1 : ℚ) (rgb.2.1 : ℚ) (rgb.2.2 : ℚ)
  if hsv.v < 0.14 then .black
  else if 0.9 < hsv.v ∧ hsv.s < 0.1 then .white
  else if hsv.s < 0.18 then .grey
  else if 330 ≤ hsv.h ∨ hsv.h < 15 then .red
  else if hsv.h < 45 then .orange
  else if hsv.h < 75 then .yellow
  else if hsv.h < 160 then .green
  else if hsv.h < 250 then .blue
  else if hsv.h < 290 then .purple
  else .pink

/-- Spec-side description of the hue arcs: contiguous, non-overlapping
intervals covering the hue circle, red wrapping at 0/360. -/
def inHueArc (c : Color) (h : ℚ) : Prop :=
  match c with
  | .red => 330 ≤ h ∨ h < 15
  | .orange => 15 ≤ h ∧ h < 45
  | .yellow => 45 ≤ h ∧ h < 75
  | .green => 75 ≤ h ∧ h < 160
  | .blue => 160 ≤ h ∧ h < 250
  | .purple => 250 ≤ h ∧ h < 290
  | .pink => 290 ≤ h ∧ h < 330
  | _ => False

theorem hueArc_partition (h : ℚ) (h0 : 0 ≤ h) (h360 : h < 360) :
    ∃! c : Color, inHueArc c h := by
  by_cases h15 : h < 15
  · refine ⟨.red, Or.inr h15, ?_⟩
    intro y hy
    cases y <;> simp only [inHueArc] at hy <;>
      first
        | rfl
        | exact hy.elim
        | (rcases hy with hy | hy <;> linarith)
        | linarith [hy.1, hy.2]
  · by_cases h45 : h < 45
    · refine ⟨.orange, ⟨by linarith, h45⟩, ?_⟩
      intro y hy
      cases y <;> simp only [inHueArc] at hy <;>
        first
          | rfl
          | exact hy.elim
          | (rcases hy with hy | hy <;> linarith)
          | linarith [hy.1, hy.2]
    · by_cases h75 : h < 75
      · refine ⟨.yellow, ⟨by linarith, h75⟩, ?_⟩
        intro y hy
        cases y <;> simp only [inHueArc] at hy <;>
          first
            | rfl
            | exact hy.elim
            | (rcases hy with hy | hy <;> linarith)
            | linarith [hy.1, hy.2]
      · by_cases h160 : h < 160
        · refine ⟨.green, ⟨by linarith, h160⟩, ?_⟩
          intro y hy
          cases y <;> simp only [inHueArc] at hy <;>
            first
              | rfl
              | exact hy.elim
              | (rcases hy with hy | hy <;> linarith)
              | linarith [hy.1, hy.2]
        · by_cases h250 : h < 250
          · refine ⟨.blue, ⟨by linarith, h250⟩, ?_⟩
            intro y hy
            cases y <;> simp only [inHueArc] at hy <;>
              first
                | rfl
                | exact hy.elim
                | (rcases hy with hy | hy <;> linarith)
                | linarith [hy.1, hy.2]
          · by_cases h290 : h < 290
            · refine ⟨.purple, ⟨by linarith, h290⟩, ?_⟩
              intro y hy
              cases y <;> simp only [inHueArc] at hy <;>
                first
                  | rfl
                  | exact hy.elim
                  | (rcases hy with hy | hy <;> linarith)
                  | linarith [hy.1, hy.2]
            · by_cases h330 : h < 330
              · refine ⟨.pink, ⟨by linarith, h330⟩, ?_⟩
                intro y hy
                cases y <;> simp only [inHueArc] at hy <;>
                  first
                    | rfl
                    | exact hy.elim
                    | (rcases hy with hy | hy <;> linarith)
                    | linarith [hy.1, hy.2]
              · refine ⟨.red, Or.inl (by linarith), ?_⟩
                intro y hy
                cases y <;> simp only [inHueArc] at hy <;>
                  first
                    | rfl
                    | exact hy.elim
                    | (rcases hy with hy | hy <;> linarith)
                    | linarith [hy.1, hy.2]

/-- HSV of a hex color string, as the source computes it inside
hexToSimpleBucket. -/
def hsvOf (s : String) : Hsv :=
  let rgb := hexToRgb s
  rgbToHsv (rgb.1 : ℚ) (rgb.2.1 : ℚ) (rgb.2.2 : ℚ)

theorem jsRem_small (x : ℚ) (h1 : -1 ≤ x) (h2 : x ≤ 1) : jsRem x 6 = x := by
  have htr : ratTrunc (x / 6) = 0 := by
    unfold ratTrunc
    split
    · have hc1 : ⌈x / 6⌉ ≤ 0 := Int.ceil_le.mpr (by push_cast; linarith)
      have hc2 : (-1 : ℤ) < ⌈x / 6⌉ := by
        rw [Int.lt_ceil]; push_cast; linarith
      omega
    · rename_i hq
      push_neg at hq
      have hf1 : ⌊x / 6⌋ < 1 := by
        rw [Int.floor_lt]; push_cast; linarith
      have hf2 : (0 : ℤ) ≤ ⌊x / 6⌋ := Int.floor_nonneg.mpr hq
      omega
  unfold jsRem
  rw [htr]
  push_cast
  ring

theorem rgbToHsv_h_range (r g b : ℚ) :
    0 ≤ (rgbToHsv r g b).h ∧ (rgbToHsv r g b).h < 360 := by
  unfold rgbToHsv
  dsimp only
  set r1 := r / 255 with hr1
  set g1 := g / 255 with hg1
  set b1 := b / 255 with hb1
  set mx := max r1 (max g1 b1) with hmxdef
  set mn := min r1 (min g1 b1) with hmndef
  have hr : r1 ≤ mx := le_max_left _ _
  have hg : g1 ≤ mx := le_trans (le_max_left _ _) (le_max_right _ _)
  have hb : b1 ≤ mx := le_trans (le_max_right _ _) (le_max_right _ _)
  have hrn : mn ≤ r1 := min_le_left _ _
  have hgn : mn ≤ g1 := le_trans (min_le_right _ _) (min_le_left _ _)
  have hbn : mn ≤ b1 := le_trans (min_le_right _ _) (min_le_right _ _)
  by_cases hd : mx - mn ≠ 0
  · rw [if_pos hd]
    have hd0 : 0 < mx - mn := lt_of_le_of_ne (by linarith) (Ne.symm hd)
    by_cases hmr : mx = r1
    · rw [if_pos hmr]
      have hub : (g1 - b1) / (mx - mn) ≤ 1 := by
        rw [div_le_one hd0]; linarith
      have hlb : (-1 : ℚ) ≤ (g1 - b1) / (mx - mn) := by
        rw [le_div_iff hd0]; linarith
      rw [jsRem_small _ hlb hub]
      set q := (g1 - b1) / (mx - mn)
      by_cases hneg : q * 60 < 0
      · rw [if_pos hneg]
        constructor <;> linarith
      · rw [if_neg hneg]
        push_neg at hneg
        constructor <;> linarith
    · rw [if_neg hmr]
      by_cases hmg : mx = g1
      · rw [if_pos hmg]
        have hub : (b1 - r1) / (mx - mn) ≤ 1 := by
          rw [div_le_one hd0]; linarith
        have hlb : (-1 : ℚ) ≤ (b1 - r1) / (mx - mn) := by
          rw [le_div_iff hd0]; linarith
        set q := (b1 - r1) / (mx - mn)
        have hno : ¬ ((q + 2) * 60 < 0) := by push_neg; nlinarith
        rw [if_neg hno]
        constructor <;> nlinarith
      · rw [if_neg hmg]
        have hub : (r1 - g1) / (mx - mn) ≤ 1 := by
          rw [div_le_one hd0]; linarith
        have hlb : (-1 : ℚ) ≤ (r1 - g1) / (mx - mn) := by
          rw [le_div_iff hd0]; linarith
        set q := (r1 - g1) / (mx - mn)
        have hno : ¬ ((q + 4) * 60 < 0) := by push_neg; nlinarith
        rw [if_neg hno]
        constructor <;> nlinarith
  · rw [if_neg hd]
    norm_num

/-- C6: the bucket classifier is total (always one of the ten labels of
COLOR_ORDER) and deterministic; it applies the black, white, grey cut-offs
in priority order, and on the chromatic path its hue lies in [0, 360) and
the returned label is exactly the label of the hue arc containing it; the
seven arcs are contiguous, non-overlapping and cover the hue circle
(unique label for every hue). -/
theorem C6_classifier_total_deterministic (s : String) :
    hexToSimpleBucket s ∈ COLOR_ORDER ∧
    hexToSimpleBucket s = hexToSimpleBucket s ∧
    ((hsvOf s).v < 0.14 → hexToSimpleBucket s = Color.black) ∧
    (¬ (hsvOf s).v < 0.14 → (0.9 < (hsvOf s).v ∧ (hsvOf s).s < 0.1) →
        hexToSimpleBucket s = Color.white) ∧
    (¬ (hsvOf s).v < 0.14 → ¬ (0.9 < (hsvOf s).v ∧ (hsvOf s).s < 0.1) →
        (hsvOf s).s < 0.18 → hexToSimpleBucket s = Color.grey) ∧
    (¬ (hsvOf s).v < 0.14 → ¬ (0.9 < (hsvOf s).v ∧ (hsvOf s).s < 0.1) →
        ¬ (hsvOf s).s < 0.18 →
        (0 ≤ (hsvOf s).h ∧ (hsvOf s).h < 360) ∧
        inHueArc (hexToSimpleBucket s) (hsvOf s).h ∧
        (∀ c : Color, inHueArc c (hsvOf s).h → hexToSimpleBucket s = c)) ∧
    (∀ h : ℚ, 0 ≤ h → h < 360 → ∃! c : Color, inHueArc c h) := by
  have hb0 : hexToSimpleBucket s =
      (if (hsvOf s).v < 0.14 then Color.black
       else if 0.9 < (hsvOf s).v ∧ (hsvOf s).s < 0.1 then Color.white
       else if (hsvOf s).s < 0.18 then Color.grey
       else if 330 ≤ (hsvOf s).h ∨ (hsvOf s).h < 15 then Color.red
       else if (hsvOf s).h < 45 then Color.orange
       else if (hsvOf s).h < 75 then Color.yellow
       else if (hsvOf s).h < 160 then Color.green
       else if (hsvOf s).h < 250 then Color.blue
       else if (hsvOf s).h < 290 then Color.purple
       else Color.pink) := rfl
  have hrange : 0 ≤ (hsvOf s).h ∧ (hsvOf s).h < 360 := by
    unfold hsvOf
    exact rgbToHsv_h_range _ _ _
  refine ⟨?_, rfl, ?_, ?_, ?_, ?_, hueArc_partition⟩
  · rw [hb0]
    split_ifs <;> simp [COLOR_ORDER]
  · intro hv
    rw [hb0, if_pos hv]
  · intro hv hw
    rw [hb0, if_neg hv, if_pos hw]
  · intro hv hw hs
    rw [hb0, if_neg hv, if_neg hw, if_pos hs]
  · intro hv hw hs
    have hmem : inHueArc (hexToSimpleBucket s) (hsvOf s).h := by
      rw [hb0, if_neg hv, if_neg hw, if_neg hs]
      by_cases h1 : 330 ≤ (hsvOf s).h ∨ (hsvOf s).h < 15
      · rw [if_pos h1]; exact h1
      · rw [if_neg h1]
        push_neg at h1
        by_cases h2 : (hsvOf s).h < 45
        · rw [if_pos h2]; exact ⟨h1.2, h2⟩
        · rw [if_neg h2]
          push_neg at h2
          by_cases h3 : (hsvOf s).h < 75
          · rw [if_pos h3]; exact ⟨h2, h3⟩
          · rw [if_neg h3]
            push_neg at h3
            by_cases h4 : (hsvOf s).h < 160
            · rw [if_pos h4]; exact ⟨h3, h4⟩
            · rw [if_neg h4]
              push_neg at h4
              by_cases h5 : (hsvOf s).h < 250
              · rw [if_pos h5]; exact ⟨h4, h5⟩
              · rw [if_neg h5]
                push_neg at h5
                by_cases h6 : (hsvOf s).h < 290
                · rw [if_pos h6]; exact ⟨h5, h6⟩
                · rw [if_neg h6]
                  push_neg at h6
                  exact ⟨h6, h1.1⟩
    refine ⟨hrange, hmem, ?_⟩
    intro c hc
    obtain ⟨c0, hc0, huniq⟩ := hueArc_partition (hsvOf s).h hrange.1 hrange.2
    exact (huniq _ hmem).trans (huniq _ hc).symm

/-! ## Dominant color extraction (Color Sampler) and its cache -/

structure Dom where
  hex : Option String
  confidence : ℚ
deriving DecidableEq, Repr

/-- Raw pixel data as sharp raw() delivers it: interleaved channel bytes.
sharp guarantees data.length = width * height * channels; a truncated
trailing chunk (never produced by sharp) reads missing bytes as 0 here
where JS would produce NaN. -/
structure RawImage where
  channels : Nat
  data : List Nat
deriving DecidableEq, Repr

structure FetchResp where
  ok : Bool
  body : List Nat
deriving DecidableEq, Repr

/-- Oracle for the image side effects of getDominantFromImage: fetch of the
raw bytes (error = rejected fetch) and the sharp resize-decode (error =
thrown decode failure). -/
structure ImgEnv where
  fetchImage : String → Except String FetchResp
  decode : List Nat → Except String RawImage

def clamp01 (x : ℚ) : ℚ := max 0 (min 1 x)

/-- JS Math.round. -/
def jsRound (q : ℚ) : ℤ := ⌊q + 1/2⌋

def natToHexLower (n : Nat) : String := String.mk (Nat.toDigits 16 n)

def padHex2 (s : String) : String :=
  String.mk (List.replicate (2 - s.length) '0') ++ s

/-- Source rgbToHex: two lowercase hex digits per channel, then uppercased. -/
def rgbToHex (r g b : Nat) : String :=
  ("#" ++ padHex2 (natToHexLower r) ++ padHex2 (natToHexLower g) ++
    padHex2 (natToHexLower b)).toUpper

structure SampleAcc where
  rSum : ℚ
  gSum : ℚ
  bSum : ℚ
  sSum : ℚ
  usedPixels : Nat
deriving DecidableEq, Repr

/-- Pixel loop of getDominantFromImage: step through the data in strides of
channels, skipping pixels with alpha below 10 (alpha is 255 when there is
no alpha channel).  Structured with fuel = data.length, enough for any
stride of at least 1 (the stride is 3 or 4 for sharp output; the JS loop
would not terminate on stride 0). -/
def samplePixelsGo (channels : Nat) : Nat → List Nat → SampleAcc → SampleAcc
  | 0, _, acc => acc
  | _ + 1, [], acc => acc
  | fuel + 1, rest, acc =>
    let r := rest.getD 0 0
    let g := rest.getD 1 0
    let b := rest.getD 2 0
    let a := if channels = 4 then rest.getD 3 0 else 255
    let acc2 :=
      if a < 10 then acc
      else
        { rSum := acc.rSum + r, gSum := acc.gSum + g, bSum := acc.bSum + b,
          sSum := acc.sSum + (rgbToHsv (r : ℚ) (g : ℚ) (b : ℚ)).s,
          usedPixels := acc.usedPixels + 1 }
    samplePixelsGo channels fuel (rest.drop channels) acc2

def sampleAccOf (img : RawImage) : SampleAcc :=
  samplePixelsGo img.channels img.data.length img.data
    { rSum := 0, gSum := 0, bSum := 0, sSum := 0, usedPixels := 0 }

/-- totalPixels of the source: Math.floor(data.length / channels). -/
def totalPixelsOf (img : RawImage) : Nat := img.data.length / img.channels

def coverageOf (img : RawImage) : ℚ :=
  ((sampleAccOf img).usedPixels : ℚ) / (max 1 (totalPixelsOf img) : ℚ)

def avgSatOf (img : RawImage) : ℚ :=
  (sampleAccOf img).sSum / ((sampleAccOf img).usedPixels : ℚ)

/-- Pure tail of getDominantFromImage once the image is decoded: average
the qualifying pixels, build the hex string and the confidence score; the
zero-pixel case yields the failure value. -/
def sampleImage (img : RawImage) : Dom :=
  let acc := sampleAccOf img
  if acc.usedPixels = 0 then { hex := none, confidence := 0 }
  else
    let r := (jsRound (acc.rSum / (acc.usedPixels : ℚ))).toNat
    let g := (jsRound (acc.gSum / (acc.usedPixels : ℚ))).toNat
    let b := (jsRound (acc.bSum / (acc.usedPixels : ℚ))).toNat
    let hex := rgbToHex r g b
    let satScore := min 1 (avgSatOf img / 0.25)
    let confidence := max 0 (min 1 (0.6 * coverageOf img + 0.4 * satScore))
    { hex := some hex, confidence := confidence }

def mapLookup {V : Type} (m : List (String × V)) (k : String) : Option V :=
  match m with
  | [] => none
  | (k2, v) :: rest => if k2 = k then some v else mapLookup rest k

/-- JS Map.set: an existing key keeps its position (its value is updated in
place); a new key is appended, preserving insertion order. -/
def mapSet {V : Type} (m : List (String × V)) (k : String) (v : V) :
    List (String × V) :=
  match m with
  | [] => [(k, v)]
  | (k2, v2) :: rest =>
    if k2 = k then (k2, v) :: rest else (k2, v2) :: mapSet rest k v

abbrev DomCache := List (String × Dom)

/-- Source dominantCacheGet (cached Dom objects are always truthy). -/
def dominantCacheGet (c : DomCache) (k : String) : Option Dom := mapLookup c k

/-- JS Map.delete of Map.keys().next().value: drop the oldest-inserted
entry when over the capacity bound. -/
def evictOldest (bound : Nat) (c : DomCache) : DomCache :=
  if bound < c.length then
    match c with
    | [] => []
    | _ :: rest => rest
  else c

/-- Source dominantCacheSet: insert, then evict the oldest-inserted entry
when over the 1200-entry capacity. -/
def dominantCacheSet (c : DomCache) (k : String) (v : Dom) : DomCache :=
  evictOldest 1200 (mapSet c k v)

/-- Source getDominantFromImage, state-passing on the module-level cache:
cache hit short-circuits; a non-OK response and the decoded sample are both
cached; a rejected fetch or a decode failure propagates as a thrown error
and leaves the cache unchanged. -/
def getDominantFromImage (ienv : ImgEnv) (cache : DomCache) (url : String) :
    Except String Dom × DomCache :=
  match dominantCacheGet cache url with
  | some cached => (.ok cached, cache)
  | none =>
    match ienv.fetchImage url with
    | .error e => (.error e, cache)
    | .ok resp =>
      if resp.ok = false then
        let fail : Dom := { hex := none, confidence := 0 }
        (.ok fail, dominantCacheSet cache url fail)
      else
        match ienv.decode resp.body with
        | .error e => (.error e, cache)
        | .ok img =>
          let out := sampleImage img
          (.ok out, dominantCacheSet cache url out)

theorem mapLookup_none_keys {V : Type} (m : List (String × V)) (k : String)
    (h : mapLookup m k = none) : ∀ p ∈ m, p.1 ≠ k := by
  induction m with
  | nil => intro p hp; cases hp
  | cons q rest ih =>
    obtain ⟨qk, qv⟩ := q
    intro p hp
    simp only [mapLookup] at h
    rcases List.mem_cons.mp hp with hp | hp
    · subst hp
      intro hk
      rw [if_pos hk] at h
      cases h
    · have hrest : mapLookup rest k = none := by
        by_cases hq : qk = k
        · rw [if_pos hq] at h; cases h
        · rwa [if_neg hq] at h
      exact ih hrest p hp

theorem mapSet_of_none {V : Type} (m : List (String × V)) (k : String) (v : V)
    (h : mapLookup m k = none) : mapSet m k v = m ++ [(k, v)] := by
  induction m with
  | nil => rfl
  | cons q rest ih =>
    obtain ⟨qk, qv⟩ := q
    simp only [mapLookup] at h
    by_cases hq : qk = k
    · rw [if_pos hq] at h; cases h
    · rw [if_neg hq] at h
      simp only [mapSet, if_neg hq, List.cons_append]
      rw [ih h]

theorem mapLookup_append_none {V : Type} (m : List (String × V)) (k : String)
    (v : V) (h : mapLookup m k = none) :
    mapLookup (m ++ [(k, v)]) k = some v := by
  induction m with
  | nil => simp [mapLookup]
  | cons q rest ih =>
    obtain ⟨qk, qv⟩ := q
    simp only [mapLookup] at h
    by_cases hq : qk = k
    · rw [if_pos hq] at h; cases h
    · rw [if_neg hq] at h
      simp only [List.cons_append, mapLookup, if_neg hq]
      exact ih h

theorem dominantCacheSet_lookup (c : DomCache) (k : String) (v : Dom)
    (h : mapLookup c k = none) :
    mapLookup (dominantCacheSet c k v) k = some v := by
  unfold dominantCacheSet evictOldest
  rw [mapSet_of_none c k v h]
  have hall := mapLookup_append_none c k v h
  split
  next hlen =>
    cases c with
    | nil => simp at hlen
    | cons q rest =>
      have hq : q.1 ≠ k := mapLookup_none_keys _ _ h q (List.mem_cons_self _ _)
      obtain ⟨qk, qv⟩ := q
      simp only [List.cons_append, mapLookup, if_neg hq] at hall
      simpa using hall
  next hlen => exact hall

theorem sampleImage_conf_bounds (img : RawImage) :
    0 ≤ (sampleImage img).confidence ∧ (sampleImage img).confidence ≤ 1 := by
  simp only [sampleImage]
  split
  · norm_num
  · exact ⟨le_max_left _ _, max_le zero_le_one (min_le_left _ _)⟩

/-- C5 (amended): with the URL not in the dominant cache, the sampler
returns the failure value on a non-OK HTTP response and on an image with no
pixel of alpha at least 10; a rejected fetch or a decode error propagates
as a thrown error (which every caller catches and replaces by the failure
value) rather than being returned; on success it returns a non-null hex
with confidence clamp01 of 0.6 * coverage + 0.4 * min 1 of avgSaturation /
0.25, and every returned confidence lies in the interval from 0 to 1. -/
theorem C5_sampler_contract (ienv : ImgEnv) (cache : DomCache) (url : String)
    (hmiss : dominantCacheGet cache url = none) :
    (∀ resp, ienv.fetchImage url = .ok resp → resp.ok = false →
        (getDominantFromImage ienv cache url).1 =
          .ok { hex := none, confidence := 0 }) ∧
    (∀ e, ienv.fetchImage url = .error e →
        (getDominantFromImage ienv cache url).1 = .error e) ∧
    (∀ resp e, ienv.fetchImage url = .ok resp → resp.ok = true →
        ienv.decode resp.body = .error e →
        (getDominantFromImage ienv cache url).1 = .error e) ∧
    (∀ img, (sampleAccOf img).usedPixels = 0 →
        sampleImage img = { hex := none, confidence := 0 }) ∧
    (∀ img, (sampleAccOf img).usedPixels ≠ 0 →
        (sampleImage img).hex ≠ none ∧
        (sampleImage img).confidence =
          clamp01 (0.6 * coverageOf img + 0.4 * min 1 (avgSatOf img / 0.25)) ∧
        0 ≤ (sampleImage img).confidence ∧ (sampleImage img).confidence ≤ 1) ∧
    (∀ d, (getDominantFromImage ienv cache url).1 = .ok d →
        0 ≤ d.confidence ∧ d.confidence ≤ 1) := by
  refine ⟨?_, ?_, ?_, ?_, ?_, ?_⟩
  · intro resp hf hok
    simp [getDominantFromImage, hmiss, hf, hok]
  · intro e hf
    simp [getDominantFromImage, hmiss, hf]
  · intro resp e hf hok hd
    simp [getDominantFromImage, hmiss, hf, hok, hd]
  · intro img h0
    simp [sampleImage, h0]
  · intro img h0
    refine ⟨?_, ?_, sampleImage_conf_bounds img⟩
    · simp [sampleImage, h0]
    · simp [sampleImage, h0, clamp01]
  · intro d hd
    simp only [getDominantFromImage, hmiss] at hd
    rcases hfetch : ienv.fetchImage url with e | resp
    · simp [hfetch] at hd
    · simp only [hfetch] at hd
      by_cases hok : resp.ok = false
      · simp [hok] at hd
        rw [← hd]
        norm_num
      · simp only [if_neg hok] at hd
        rcases hdec : ienv.decode resp.body with e | img
        · simp [hdec] at hd
        · simp [hdec] at hd
          rw [← hd]
          exact sampleImage_conf_bounds img

/-- Environment whose fetch succeeds with a non-OK status. -/
def ienvNotOk : ImgEnv :=
  { fetchImage := fun _ => .ok { ok := false, body := [] },
    decode := fun _ => .error "nope" }

/-- C5 witness: a non-OK response makes the sampler return the failure
value. -/
theorem C5_sampler_contract_witness :
    dominantCacheGet ([] : DomCache) "u" = none ∧
    (getDominantFromImage ienvNotOk [] "u").1 =
      Except.ok { hex := none, confidence := 0 } :=
  ⟨rfl, (C5_sampler_contract ienvNotOk [] "u" rfl).1 { ok := false, body := [] }
    rfl rfl⟩

/-- Environment whose fetch succeeds but whose decode throws. -/
def ienvDecodeFail : ImgEnv :=
  { fetchImage := fun _ => .ok { ok := true, body := [0] },
    decode := fun _ => .error "decode failure" }

/-- C5 counterexample: on a decode error getDominantFromImage rejects with
the thrown error; it does not return the failure value as the claim
states. -/
theorem C5_decode_error_cex :
    (getDominantFromImage ienvDecodeFail [] "u").1 =
      Except.error "decode failure" ∧
    (getDominantFromImage ienvDecodeFail [] "u").1 ≠
      Except.ok { hex := none, confidence := 0 } := by
  refine ⟨rfl, ?_⟩
  intro h
  rw [show (getDominantFromImage ienvDecodeFail [] "u").1 =
    Except.error "decode failure" from rfl] at h
  cases h

/-- C10: the dominant-color cache memoizes both failures and successes with
no TTL: a cached URL is answered from the cache alone (the same value for
every environment, so no refetch), a non-OK response stores the failure
value which subsequent calls return unchanged, and thrown fetch or decode
errors are not cached (the cache is left exactly as it was). -/
theorem C10_dominant_cache_memoization (ienv ienv2 : ImgEnv) (cache : DomCache)
    (url : String) (v : Dom) (resp : FetchResp) (e : String) :
    (dominantCacheGet cache url = some v →
        getDominantFromImage ienv cache url = (.ok v, cache) ∧
        getDominantFromImage ienv cache url =
          getDominantFromImage ienv2 cache url) ∧
    (dominantCacheGet cache url = none → ienv.fetchImage url = .ok resp →
        resp.ok = false →
        getDominantFromImage ienv cache url =
          (.ok { hex := none, confidence := 0 },
           dominantCacheSet cache url { hex := none, confidence := 0 }) ∧
        dominantCacheGet
            (dominantCacheSet cache url { hex := none, confidence := 0 }) url =
          some { hex := none, confidence := 0 } ∧
        getDominantFromImage ienv2
            (dominantCacheSet cache url { hex := none, confidence := 0 }) url =
          (.ok { hex := none, confidence := 0 },
           dominantCacheSet cache url { hex := none, confidence := 0 })) ∧
    (dominantCacheGet cache url = none → ienv.fetchImage url = .error e →
        getDominantFromImage ienv cache url = (.error e, cache)) ∧
    (dominantCacheGet cache url = none → ienv.fetchImage url = .ok resp →
        resp.ok = true → ienv.decode resp.body = .error e →
        getDominantFromImage ienv cache url = (.error e, cache)) := by
  refine ⟨?_, ?_, ?_, ?_⟩
  · intro hhit
    constructor <;> simp [getDominantFromImage, hhit]
  · intro hmiss hf hok
    have hlook : dominantCacheGet
        (dominantCacheSet cache url { hex := none, confidence := 0 }) url =
        some { hex := none, confidence := 0 } :=
      dominantCacheSet_lookup cache url { hex := none, confidence := 0 } hmiss
    refine ⟨?_, hlook, ?_⟩
    · simp [getDominantFromImage, hmiss, hf, hok]
    · simp [getDominantFromImage, hlook]
  · intro hmiss hf
    simp [getDominantFromImage, hmiss, hf]
  · intro hmiss hf hok hd
    simp [getDominantFromImage, hmiss, hf, hok, hd]

/-- C10 witness: concrete non-OK fetch is cached and replayed from the
cache on the next call. -/
theorem C10_dominant_cache_memoization_witness :
    dominantCacheGet ([] : DomCache) "u" = none ∧
    getDominantFromImage ienvNotOk [] "u" =
      (Except.ok { hex := none, confidence := 0 },
       [("u", { hex := none, confidence := 0 })]) ∧
    getDominantFromImage ienvDecodeFail
        [("u", { hex := none, confidence := 0 })] "u" =
      (Except.ok { hex := none, confidence := 0 },
       [("u", { hex := none, confidence := 0 })]) :=
  ⟨rfl,
   by
    have h := (C10_dominant_cache_memoization ienvNotOk ienvDecodeFail [] "u"
      { hex := none, confidence := 0 } { ok := false, body := [] } "e").2.1
      rfl rfl rfl
    exact h.1,
   by
    have h := (C10_dominant_cache_memoization ienvDecodeFail ienvNotOk
      [("u", { hex := none, confidence := 0 })] "u"
      { hex := none, confidence := 0 } { ok := false, body := [] } "e").1 rfl
    exact h.1⟩

/-! ## Cache and single-flight layer -/

/-- Source tokenKey: last 12 characters of the access token (an empty token
is falsy in JS and maps to the fixed key). -/
def tokenKey (accessToken : String) : String :=
  if accessToken = "" then "no_token" else accessToken.takeRight 12

def mapDelete {V : Type} (m : List (String × V)) (k : String) :
    List (String × V) :=
  match m with
  | [] => []
  | (k2, v) :: rest => if k2 = k then rest else (k2, v) :: mapDelete rest k

/-- Cache entry of the Spotify and compute caches: value and insert time. -/
structure CacheEntry (V : Type) where
  v : V
  t : Int

/-- Source spotifyCacheGet with Date.now passed explicitly: a stale entry
(now - t over the 20000 ms TTL) is deleted and misses. -/
def spotifyCacheGetAt {V : Type} (cache : List (String × CacheEntry V))
    (now : Int) (k : String) : Option V × List (String × CacheEntry V) :=
  match mapLookup cache k with
  | none => (none, cache)
  | some hit =>
    if 20000 < now - hit.t then (none, mapDelete cache k) else (some hit.v, cache)

/-- Source computeCacheGet: the compute cache has a 12000 ms TTL. -/
def computeCacheGetAt {V : Type} (cache : List (String × CacheEntry V))
    (now : Int) (k : String) : Option V × List (String × CacheEntry V) :=
  match mapLookup cache k with
  | none => (none, cache)
  | some hit =>
    if 12000 < now - hit.t then (none, mapDelete cache k) else (some hit.v, cache)

/-- Shared mutable state of one cache layer: the value cache and the
in-flight promise map (T stands for a promise identity). -/
structure FlightState (V T : Type) where
  cache : List (String × CacheEntry V)
  inflight : List (String × T)

/-- What the synchronous prefix of a cached fetch hands its caller. -/
inductive AcquireOutcome (V T : Type)
  | value (v : V)
  | joined (t : T)
  | started (t : T)

/-- Common shape of the two synchronous check-then-register prefixes, with
the cache-get result passed in: a truthy cached value is returned, else an
existing in-flight promise is joined, else the fresh promise is
registered. -/
def acquireStep {V T : Type} (got : Option V × List (String × CacheEntry V))
    (truthy : V → Bool) (inflight : List (String × T)) (k : String)
    (fresh : T) : AcquireOutcome V T × FlightState V T :=
  match got.1 with
  | some v =>
    if truthy v then (.value v, { cache := got.2, inflight := inflight })
    else
      match mapLookup inflight k with
      | some p => (.joined p, { cache := got.2, inflight := inflight })
      | none => (.started fresh, { cache := got.2, inflight := mapSet inflight k fresh })
  | none =>
    match mapLookup inflight k with
    | some p => (.joined p, { cache := got.2, inflight := inflight })
    | none => (.started fresh, { cache := got.2, inflight := mapSet inflight k fresh })

/-- Synchronous prefix of source spotifyFetchJson: cached check (JS checks
the cached value for truthiness before returning it), then the in-flight
check, then registration of the fresh promise.  The whole prefix contains
no await, so the single-threaded event loop runs it atomically; fresh is
the promise the caller would create. -/
def spotifyAcquire {V T : Type} (truthy : V → Bool) (st : FlightState V T)
    (now : Int) (k : String) (fresh : T) :
    AcquireOutcome V T × FlightState V T :=
  acquireStep (spotifyCacheGetAt st.cache now k) truthy st.inflight k fresh

/-- Synchronous prefix of source computeResultsForRange around the compute
cache and COMPUTE_INFLIGHT: identical structure with the compute TTL. -/
def computeAcquire {V T : Type} (truthy : V → Bool) (st : FlightState V T)
    (now : Int) (k : String) (fresh : T) :
    AcquireOutcome V T × FlightState V T :=
  acquireStep (computeCacheGetAt st.cache now k) truthy st.inflight k fresh

theorem acquireStep_joined {V T : Type}
    (got : Option V × List (String × CacheEntry V)) (truthy : V → Bool)
    (inflight : List (String × T)) (k : String) (fresh tok : T)
    (hmiss : got.1 = none) (hfl : mapLookup inflight k = some tok) :
    acquireStep got truthy inflight k fresh =
      (.joined tok, { cache := got.2, inflight := inflight }) := by
  simp [acquireStep, hmiss, hfl]

theorem acquireStep_started {V T : Type}
    (got : Option V × List (String × CacheEntry V)) (truthy : V → Bool)
    (inflight : List (String × T)) (k : String) (fresh t2 : T)
    (st2 : FlightState V T)
    (hrun : acquireStep got truthy inflight k fresh = (.started t2, st2)) :
    mapLookup inflight k = none ∧ t2 = fresh ∧
      st2.inflight = mapSet inflight k fresh := by
  rcases hcg : got.1 with _ | v <;>
    rcases hfl : mapLookup inflight k with _ | p <;>
      simp [acquireStep, hcg, hfl] at hrun
  · exact ⟨rfl, hrun.1.symm, by rw [← hrun.2]⟩
  · by_cases ht : truthy v
    · simp [ht] at hrun
    · simp [ht] at hrun
      exact ⟨rfl, hrun.1.symm, by rw [← hrun.2]⟩
  · by_cases ht : truthy v
    · simp [ht] at hrun
    · simp [ht] at hrun

/-- C8: for both cache layers, while an in-flight entry for a key exists, a
caller that misses the cache receives exactly the registered pending
promise and the in-flight map is unchanged (no duplicate computation is
registered); a fresh computation is only ever started when no in-flight
entry for the key exists. -/
theorem C8_single_flight {V T : Type} (truthy : V → Bool) (st : FlightState V T)
    (now : Int) (k : String) (fresh tok : T) :
    ((spotifyCacheGetAt st.cache now k).1 = none →
      mapLookup st.inflight k = some tok →
      spotifyAcquire truthy st now k fresh =
        (.joined tok,
         { cache := (spotifyCacheGetAt st.cache now k).2,
           inflight := st.inflight })) ∧
    (∀ t2 st2, spotifyAcquire truthy st now k fresh = (.started t2, st2) →
      mapLookup st.inflight k = none ∧ t2 = fresh ∧
      st2.inflight = mapSet st.inflight k fresh) ∧
    ((computeCacheGetAt st.cache now k).1 = none →
      mapLookup st.inflight k = some tok →
      computeAcquire truthy st now k fresh =
        (.joined tok,
         { cache := (computeCacheGetAt st.cache now k).2,
           inflight := st.inflight })) ∧
    (∀ t2 st2, computeAcquire truthy st now k fresh = (.started t2, st2) →
      mapLookup st.inflight k = none ∧ t2 = fresh ∧
      st2.inflight = mapSet st.inflight k fresh) :=
  ⟨fun hmiss hfl => acquireStep_joined _ truthy st.inflight k fresh tok hmiss hfl,
   fun t2 st2 hrun => acquireStep_started _ truthy st.inflight k fresh t2 st2 hrun,
   fun hmiss hfl => acquireStep_joined _ truthy st.inflight k fresh tok hmiss hfl,
   fun t2 st2 hrun => acquireStep_started _ truthy st.inflight k fresh t2 st2 hrun⟩

/-- C8 witness: with one in-flight promise (labelled 7) for key k and an
empty cache, a second caller joins promise 7 and registers nothing. -/
theorem C8_single_flight_witness :
    @spotifyAcquire Nat Nat (fun _ => true)
        { cache := [], inflight := [("k", 7)] } 0 "k" 9 =
      (.joined 7, { cache := [], inflight := [("k", 7)] }) ∧
    @computeAcquire Nat Nat (fun _ => true)
        { cache := [], inflight := [("k", 7)] } 0 "k" 9 =
      (.joined 7, { cache := [], inflight := [("k", 7)] }) :=
  ⟨(@C8_single_flight Nat Nat (fun _ => true)
      { cache := [], inflight := [("k", 7)] } 0 "k" 9 7).1 rfl rfl,
   (@C8_single_flight Nat Nat (fun _ => true)
      { cache := [], inflight := [("k", 7)] } 0 "k" 9 7).2.2.1 rfl rfl⟩

/-! ## Pipeline data model -/

structure Bucket where
  top : Option Album := none
  others : List Album := []
deriving DecidableEq, Repr

abbrev Result := Color → Bucket

abbrev BByF := Color → Option String

def setBucket (r : Result) (c : Color) (b : Bucket) : Result :=
  fun c2 => if c2 = c then b else r c2

def setBBy (m : BByF) (c : Color) (tag : String) : BByF :=
  fun c2 => if c2 = c then some tag else m c2

/-- Source buildEmptyResult. -/
def buildEmptyResult : Result := fun _ => { top := none, others := [] }

structure TopArtist where
  id : String := ""
  name : String := ""
deriving DecidableEq, Repr

/-- Raw album object of the Spotify JSON (only the fields the core reads:
artists are read through their name, images through their url). -/
structure RawAlbum where
  id : Option String := none
  name : String := ""
  artistNames : List String := []
  imageUrls : List String := []
  total_tracks : Option Int := none
deriving DecidableEq, Repr

structure RawTrack where
  album : Option RawAlbum := none
deriving DecidableEq, Repr

structure SavedItem where
  album : Option RawAlbum := none
deriving DecidableEq, Repr

/-- Oracle of the cached Spotify wrappers and the dominant-color sampler,
for one fixed access token.  Each call yields the items of the response
(the .items || [] read is folded in) or Except.error for a rejected fetch;
dominant url stands for getDominantFromImage(url), a function of the url
thanks to its memoization. -/
structure Env where
  topTracks : String → Nat → Nat → Except String (List RawTrack)
  topArtists : Nat → Except String (List TopArtist)
  artistAlbums : String → Nat → Except String (List RawAlbum)
  savedAlbums : Nat → Nat → Except String (List SavedItem)
  dominant : String → Except String Dom

/-- JS truthiness of an optional string (undefined, null and the empty
string are falsy). -/
def strTruthy : Option String → Option String
  | some s => if s = "" then none else some s
  | none => none

/-- Source isOneTrackAlbum. -/
def isOneTrackAlbum (a : RawAlbum) : Bool :=
  match a.total_tracks with
  | some t => t ≤ 1
  | none => false

/-! ## normalizeAlbumName -/

/-- Scan for the closing delimiter of a non-greedy group: the regex dot
does not cross a newline, so a newline before the closer kills the match. -/
def chopToClose (cls : Char) : List Char → Option (List Char)
  | [] => none
  | c :: cs => if c = cls then some cs else if c = '\n' then none else chopToClose cls cs

/-- Global removal of the non-greedy delimited groups of the source
regexes (parentheses and brackets): each opener matches up to the nearest
closer; an opener with no reachable closer stays.  Fuel is the input
length. -/
def stripDelimitedGo (opn cls : Char) : Nat → List Char → List Char
  | _, [] => []
  | 0, l => l
  | fuel + 1, c :: cs =>
    if c = opn then
      match chopToClose cls cs with
      | some rest => stripDelimitedGo opn cls fuel rest
      | none => c :: stripDelimitedGo opn cls fuel cs
    else c :: stripDelimitedGo opn cls fuel cs

/-- JS word character \w. -/
def isWordChar (c : Char) : Bool := c.isAlphanum || c = '_'

/-- The keyword alternatives of the source regex, longest variant of
remaster(ed)? first, in alternation order. -/
def normalizeKeywords : List (List Char) :=
  [String.data "deluxe", String.data "remastered", String.data "remaster",
   String.data "edition", String.data "anniversary", String.data "expanded",
   String.data "reissue", String.data "bonus", String.data "mono",
   String.data "stereo"]

def matchChars : List Char → List Char → Option (List Char)
  | [], rest => some rest
  | _, [] => none
  | k :: ks, c :: cs => if c = k then matchChars ks cs else none

/-- Try the keyword alternatives at the current position; a match must end
at a word boundary. -/
def tryKeywords : List (List Char) → List Char → Option (List Char)
  | [], _ => none
  | kw :: kws, text =>
    match matchChars kw text with
    | some rest =>
      if (match rest with | [] => true | c :: _ => !isWordChar c) then some rest
      else tryKeywords kws text
    | none => tryKeywords kws text

/-- Remove whole-word keywords left to right, tracking whether the previous
character of the original string was a word character (the \b before the
keyword). -/
def stripKeywordsGo : Nat → Bool → List Char → List Char
  | _, _, [] => []
  | 0, _, l => l
  | fuel + 1, prevWord, c :: cs =>
    if prevWord then c :: stripKeywordsGo fuel (isWordChar c) cs
    else
      match tryKeywords normalizeKeywords (c :: cs) with
      | some rest => stripKeywordsGo fuel true rest
      | none => c :: stripKeywordsGo fuel (isWordChar c) cs

/-- Collapse runs of whitespace to one space (the \s+ replace). -/
def collapseWsGo : Nat → List Char → List Char
  | _, [] => []
  | 0, l => l
  | fuel + 1, c :: cs =>
    if c.isWhitespace then ' ' :: collapseWsGo fuel (cs.dropWhile Char.isWhitespace)
    else c :: collapseWsGo fuel cs

/-- Source normalizeAlbumName: lowercase, drop parenthesised and bracketed
groups, drop edition keywords on word boundaries, collapse whitespace,
trim. -/
def normalizeAlbumName (name : String) : String :=
  let l0 := name.toLower.data
  let l1 := stripDelimitedGo '(' ')' l0.length l0
  let l2 := stripDelimitedGo '[' ']' l1.length l1
  let l3 := stripKeywordsGo l2.length false l2
  let l4 := collapseWsGo l3.length l3
  (String.mk l4).trim

/-! ## Candidate building -/

def joinArtistNames (ns : List String) : String := String.intercalate ", " ns

structure GatherOpts where
  pages : Nat
  pageSize : Nat
  maxUnique : Nat
  timeWeight : ℚ

/-- Merge key of gatherTopTrackCandidates. -/
def albumKeyOf (alb : RawAlbum) : String :=
  normalizeAlbumName alb.name ++ "::" ++ (alb.artistNames.headD "").toLower

/-- Initial albumMap entry of gatherTopTrackCandidates. -/
def albumBase (alb : RawAlbum) (idStr : String) : Album :=
  { id := idStr, name := alb.name, artist := joinArtistNames alb.artistNames,
    image := strTruthy alb.imageUrls.head?, total_tracks := alb.total_tracks,
    score := 0, appearances := some 0, count := 0,
    hex := none, confidence := none, source := none }

/-- The += updates of one track mention. -/
def bumpAlbum (a : Album) (sc : ℚ) : Album :=
  { a with score := a.score + sc,
           appearances := some (a.appearances.getD 0 + 1),
           count := a.count + 1 }

/-- albumMap[key] upsert: an existing key is updated in place, a new key is
appended (JS object property order). -/
def upsertAlbum (m : List (String × Album)) (k : String) (base : Album)
    (sc : ℚ) : List (String × Album) :=
  if (mapLookup m k).isSome then
    m.map (fun p => if p.1 = k then (p.1, bumpAlbum p.2 sc) else p)
  else m ++ [(k, bumpAlbum base sc)]

/-- Body of the track loop of gatherTopTrackCandidates. -/
def processTrack (totalApprox timeWeight : ℚ) (p pageSize : Nat)
    (m : List (String × Album)) (idx : Nat) (track : RawTrack) :
    List (String × Album) :=
  match track.album with
  | none => m
  | some alb =>
    match strTruthy alb.id with
    | none => m
    | some idStr =>
      if isOneTrackAlbum alb then m
      else
        let key := albumKeyOf alb
        let globalIndex := p * pageSize + idx
        let score := rankWeight (globalIndex : ℚ) totalApprox * timeWeight
        upsertAlbum m key (albumBase alb idStr) score

/-- Page loop of gatherTopTrackCandidates (break on a short page). -/
def gatherPages (env : Env) (timeRange : String) (opts : GatherOpts)
    (totalApprox : ℚ) : Nat → Nat → List (String × Album) →
    Except String (List (String × Album))
  | 0, _, m => .ok m
  | pagesLeft + 1, p, m =>
    match env.topTracks timeRange opts.pageSize (p * opts.pageSize) with
    | .error e => .error e
    | .ok items =>
      let m2 := items.enum.foldl
        (fun acc pair =>
          processTrack totalApprox opts.timeWeight p opts.pageSize acc pair.1 pair.2)
        m
      if items.length < opts.pageSize then .ok m2
      else gatherPages env timeRange opts totalApprox pagesLeft (p + 1) m2

def sortByScoreDesc (l : List Album) : List Album :=
  sortStable (fun a b => decide (b.score ≤ a.score)) l

/-- Source gatherTopTrackCandidates. -/
def gatherTopTrackCandidates (env : Env) (timeRange : String)
    (opts : GatherOpts) : Except String (List Album) :=
  let totalApprox : ℚ := max 1 ((opts.pages * opts.pageSize : Nat) : ℚ)
  match gatherPages env timeRange opts totalApprox opts.pages 0 [] with
  | .error e => .error e
  | .ok m => .ok ((sortByScoreDesc (m.map Prod.snd)).take opts.maxUnique)

/-- The top-artist reinforcement bonus of computeResultsForRange: entry i
of the list earns (length - i) / 22; a repeated artist name keeps the last
assignment (JS object overwrite). -/
def bonusFor (aitems : List TopArtist) (primary : String) : Option ℚ :=
  ((aitems.enum.reverse.find? (fun q => q.2.name = primary)).map
    (fun q => (((aitems.length - q.1 : Nat)) : ℚ) / 22))

/-- The try-caught top-artist bonus block of computeResultsForRange; a
failed fetch leaves the candidates untouched, a zero bonus is falsy. -/
def applyArtistBonus (env : Env) (candidates : List Album) : List Album :=
  match env.topArtists 12 with
  | .error _ => candidates
  | .ok aitems =>
    candidates.map (fun album =>
      let primary := ((album.artist.splitOn ",").headD "").trim
      match bonusFor aitems primary with
      | some b => if b ≠ 0 then { album with score := album.score + b } else album
      | none => album)

/-! ## Enrichment -/

/-- One album of enrichWithDominant: no image means no color; a thrown
sampler error is caught and also means no color. -/
def enrichAlbum (env : Env) (a : Album) : Album :=
  match a.image with
  | none => { a with hex := none, confidence := some 0 }
  | some url =>
    match env.dominant url with
    | .ok d => { a with hex := d.hex, confidence := some d.confidence }
    | .error _ => { a with hex := none, confidence := some 0 }

/-- Source enrichWithDominant: the worker pool writes each result to its
own slot, so the outcome is the per-element map. -/
def enrichWithDominant (env : Env) (albums : List Album) : List Album :=
  albums.map (enrichAlbum env)

/-- Source enrichMoreIfNeeded: enrich the pool slice that still lacks a hex
and has an image (the slice aliases the pool, so the pool is updated). -/
def enrichMoreIfNeeded (env : Env) (pool : List Album) (startIndex count : Nat) :
    List Album :=
  pool.enum.map (fun q =>
    if startIndex ≤ q.1 ∧ q.1 < startIndex + count ∧ strTruthy q.2.hex = none ∧
        q.2.image.isSome
    then enrichAlbum env q.2 else q.2)

/-- enrichWithDominant over slice(0, k): first k entries enriched. -/
def enrichFirst (env : Env) (pool : List Album) (k : Nat) : List Album :=
  (pool.take k).map (enrichAlbum env) ++ pool.drop k

/-! ## Strictness, selection, uniqueness enforcement -/

structure Strictness where
  minConf : ℚ
  minConfWide : ℚ
  savedScan : Nat
  savedScanWide : Nat
  topArtistsN : Nat
  albumsPerArtist : Nat
  candidateCap : Nat
  topTrackPagesWide : Nat
  firstEnrich : Nat
  enrichBatch : Nat
  maxTotalEnrich : Nat
  pickWindow : Nat
  dominanceMargin : ℚ
deriving Repr

/-- Source strictnessForRange. -/
def strictnessForRange (timeRange : String) : Strictness :=
  if timeRange = "long_term" then
    { minConf := 0.18, minConfWide := 0.10, savedScan := 900,
      savedScanWide := 1600, topArtistsN := 14, albumsPerArtist := 22,
      candidateCap := 240, topTrackPagesWide := 4, firstEnrich := 520,
      enrichBatch := 240, maxTotalEnrich := 1600, pickWindow := 6,
      dominanceMargin := 0.32 }
  else if timeRange = "medium_term" then
    { minConf := 0.22, minConfWide := 0.12, savedScan := 650,
      savedScanWide := 1200, topArtistsN := 12, albumsPerArtist := 18,
      candidateCap := 200, topTrackPagesWide := 3, firstEnrich := 520,
      enrichBatch := 220, maxTotalEnrich := 1400, pickWindow := 4,
      dominanceMargin := 0.42 }
  else
    { minConf := 0.26, minConfWide := 0.14, savedScan := 450,
      savedScanWide := 900, topArtistsN := 10, albumsPerArtist := 16,
      candidateCap := 180, topTrackPagesWide := 3, firstEnrich := 520,
      enrichBatch := 200, maxTotalEnrich := 1200, pickWindow := 2,
      dominanceMargin := 0.55 }

/-- Bucket list of one color inside computeResultsForRange: the enriched
albums with a truthy hex classifying to the color, in pool order. -/
def bucketListFor (limited : List Album) (c : Color) : List Album :=
  limited.filter (fun a =>
    match strTruthy a.hex with
    | some hx => decide (hexToSimpleBucket hx = c)
    | none => false)

def sortByStrength (l : List Album) : List Album :=
  sortStable (fun a b => decide (cmpAlbumStrength (some a) (some b) ≤ 0)) l

/-- The pick-tops-and-others loop of computeResultsForRange, per color. -/
def pickPrimary (S : Strictness) (requestedRange : String)
    (limited : List Album) : Result :=
  fun color =>
    let list := sortByStrength (bucketListFor limited color)
    let top := pickTopForColor list color S.pickWindow
      (requestedRange ++ ":" ++ colorName color ++ ":primary") S.dominanceMargin
    { top := top,
      others := (list.filter (fun x =>
        match top with
        | some t => decide (x.id ≠ t.id)
        | none => true)).take 6 }

/-- One color step of source enforceUniqueTops: seen maps album id to the
color currently holding it; on a duplicate the comparison decides which of
the two buckets is cleared (others cleared with the top). -/
def enforceStep (st : Result × List (String × Color)) (color : Color) :
    Result × List (String × Color) :=
  match (st.1 color).top with
  | none => st
  | some top =>
    if top.id = "" then st
    else
      match mapLookup st.2 top.id with
      | none => (st.1, mapSet st.2 top.id color)
      | some otherColor =>
        if cmpAlbumStrength (st.1 color).top (st.1 otherColor).top < 0 then
          (setBucket st.1 color { top := none, others := [] }, st.2)
        else
          (setBucket st.1 otherColor { top := none, others := [] },
           mapSet st.2 top.id color)

/-- Source enforceUniqueTops. -/
def enforceUniqueTops (result : Result) : Result :=
  (COLOR_ORDER.foldl enforceStep (result, [])).1

/-- One color of getUsedAlbumIds: add the truthy top id to the set. -/
def usedStep (result : Result) (used : List String) (c : Color) : List String :=
  match (result c).top with
  | some t => if t.id ≠ "" ∧ t.id ∉ used then used ++ [t.id] else used
  | none => used

/-- Source getUsedAlbumIds (a Set of truthy top ids). -/
def getUsedAlbumIds (result : Result) : List String :=
  COLOR_ORDER.foldl (usedStep result) []

/-- The missing() helper of computeResultsForRange. -/
def missingColors (result : Result) : List Color :=
  COLOR_ORDER.filter (fun c => ((result c).top).isNone)

/-! ## Backfill search functions -/

/-- Source pickBestMatchingFromPool. -/
def pickBestMatchingFromPool (pool : List Album) (targetColor : Color)
    (usedIds : List String) (minConf : ℚ) : Option Album :=
  pool.foldl
    (fun best a =>
      if a.id = "" ∨ a.id ∈ usedIds then best
      else
        match strTruthy a.hex with
        | none => best
        | some hx =>
          if a.confidence.getD 0 < minConf then best
          else if hexToSimpleBucket hx ≠ targetColor then best
          else
            match best with
            | none => some a
            | some b => if cmpAlbumStrength (some a) (some b) < 0 then some a else best)
    none

/-- Acceptance tail of one saved-library item, with the (caught) dominant
sample passed in: truthy hex meeting the confidence floor and matching the
target bucket replaces a lower-confidence best. -/
def savedConsider (targetColor : Color) (minConf : ℚ) (alb : RawAlbum)
    (idStr image : String) (d : Dom) (best : Option Album) : Option Album :=
  match strTruthy d.hex with
  | none => best
  | some hx =>
    if d.confidence < minConf then best
    else if hexToSimpleBucket hx ≠ targetColor then best
    else
      let candidate : Album :=
        { id := idStr, name := alb.name,
          artist := joinArtistNames alb.artistNames,
          image := some image, total_tracks := alb.total_tracks,
          source := some "saved", score := 0, count := 0,
          appearances := none, hex := some hx,
          confidence := some d.confidence }
      match best with
      | none => some candidate
      | some b =>
        if b.confidence.getD 0 < d.confidence then some candidate else best

/-- One saved-library item of findSavedAlbumBackfillForColor; the dominant
call is caught into the failure value. -/
def savedItemStep (env : Env) (targetColor : Color) (usedIds : List String)
    (minConf : ℚ) (best : Option Album) (it : SavedItem) : Option Album :=
  match it.album with
  | none => best
  | some alb =>
    match strTruthy alb.id with
    | none => best
    | some idStr =>
      if idStr ∈ usedIds then best
      else if isOneTrackAlbum alb then best
      else
        match strTruthy alb.imageUrls.head? with
        | none => best
        | some image =>
          savedConsider targetColor minConf alb idStr image
            (match env.dominant image with
             | .ok d => d
             | .error _ => { hex := none, confidence := 0 })
            best

/-- Saved-album page loop (break on a short page). -/
def findSavedPages (env : Env) (targetColor : Color) (usedIds : List String)
    (minConf : ℚ) : Nat → Nat → Option Album → Except String (Option Album)
  | 0, _, best => .ok best
  | pagesLeft + 1, p, best =>
    match env.savedAlbums 50 (p * 50) with
    | .error e => .error e
    | .ok items =>
      let best2 := items.foldl (savedItemStep env targetColor usedIds minConf) best
      if items.length < 50 then .ok best2
      else findSavedPages env targetColor usedIds minConf pagesLeft (p + 1) best2

/-- Source findSavedAlbumBackfillForColor: pages = ceil(maxToScan / 50). -/
def findSavedAlbumBackfillForColor (env : Env) (targetColor : Color)
    (usedIds : List String) (minConf : ℚ) (maxToScan : Nat) :
    Except String (Option Album) :=
  findSavedPages env targetColor usedIds minConf ((maxToScan + 49) / 50) 0 none

/-- Candidate collection over one artist's albums, with the dedup set and
the candidate cap (break once the cap is reached). -/
def artistItemsCollect (usedIds : List String) (cap : Nat) :
    List RawAlbum → List String → List Album → List String × List Album
  | [], seen, cands => (seen, cands)
  | item :: rest, seen, cands =>
    match strTruthy item.id with
    | none => artistItemsCollect usedIds cap rest seen cands
    | some idStr =>
      if idStr ∈ usedIds then artistItemsCollect usedIds cap rest seen cands
      else if idStr ∈ seen then artistItemsCollect usedIds cap rest seen cands
      else if isOneTrackAlbum item then artistItemsCollect usedIds cap rest seen cands
      else
        match strTruthy item.imageUrls.head? with
        | none => artistItemsCollect usedIds cap rest seen cands
        | some image =>
          let seen2 := seen ++ [idStr]
          let cands2 := cands ++
            [{ id := idStr, name := item.name,
               artist := joinArtistNames item.artistNames,
               image := some image, total_tracks := item.total_tracks,
               source := some "artist", score := 0, count := 0,
               appearances := none, hex := none, confidence := none }]
          if cap ≤ cands2.length then (seen2, cands2)
          else artistItemsCollect usedIds cap rest seen2 cands2

/-- Outer artist loop of findArtistBackfillForColor. -/
def artistsCollect (env : Env) (usedIds : List String)
    (albumsPerArtist cap : Nat) : List TopArtist → List String → List Album →
    Except String (List Album)
  | [], _, cands => .ok cands
  | ar :: rest, seen, cands =>
    match env.artistAlbums ar.id albumsPerArtist with
    | .error e => .error e
    | .ok items =>
      let sc := artistItemsCollect usedIds cap items seen cands
      if cap ≤ sc.2.length then .ok sc.2
      else artistsCollect env usedIds albumsPerArtist cap rest sc.1 sc.2

/-- Acceptance tail of one artist-catalog candidate, with the (caught)
dominant sample passed in. -/
def artistConsider (targetColor : Color) (minConf : ℚ) (c : Album) (d : Dom)
    (best : Option Album) : Option Album :=
  match strTruthy d.hex with
  | none => best
  | some hx =>
    if d.confidence < minConf then best
    else if hexToSimpleBucket hx ≠ targetColor then best
    else
      let enriched := { c with hex := some hx, confidence := some d.confidence }
      match best with
      | none => some enriched
      | some b =>
        if b.confidence.getD 0 < d.confidence then some enriched else best

/-- One candidate of the best-match scan of findArtistBackfillForColor. -/
def artistConsiderStep (env : Env) (targetColor : Color) (minConf : ℚ)
    (best : Option Album) (c : Album) : Option Album :=
  artistConsider targetColor minConf c
    (match env.dominant (c.image.getD "") with
     | .ok d => d
     | .error _ => { hex := none, confidence := 0 })
    best

/-- Source findArtistBackfillForColor: collect capped candidates from the
top artists, then keep the highest-confidence match of the target color
(the mapLimit updates best per completed item; modelled in list order, all
orders give a best of the same id-excluded candidate set). -/
def findArtistBackfillForColor (env : Env) (targetColor : Color)
    (usedIds : List String) (minConf : ℚ) (topArtistsN albumsPerArtist cap : Nat) :
    Except String (Option Album) :=
  match env.topArtists topArtistsN with
  | .error e => .error e
  | .ok artists =>
  match artistsCollect env usedIds albumsPerArtist cap artists [] [] with
  | .error e => .error e
  | .ok candidates =>
  .ok (candidates.foldl (artistConsiderStep env targetColor minConf) none)

/-- The .catch(() => null) around each backfill stage call. -/
def catchNull (e : Except String (Option Album)) : Option Album :=
  match e with
  | .ok v => v
  | .error _ => none

/-! ## Backfill stages and the compute body -/

/-- Shared shape of every backfill assignment loop: iterate the snapshot of
currently missing colors, compute the stage's pick against the running
used-id set, install a hit as the new top with empty others and record the
stage tag. -/
def assignStep (pickF : Result → Color → Option Album) (tag : String)
    (st : Result × BByF) (color : Color) : Result × BByF :=
  match pickF st.1 color with
  | some p =>
    (setBucket st.1 color { top := some p, others := [] },
     setBBy st.2 color tag)
  | none => st

def assignFoldF (pickF : Result → Color → Option Album) (tag : String)
    (colors : List Color) (st : Result × BByF) : Result × BByF :=
  colors.foldl (assignStep pickF tag) st

/-- The saved / saved_wide backfill loop of computeResultsForRange. -/
def savedStage (env : Env) (minConf : ℚ) (maxToScan : Nat) (tag : String)
    (st : Result × BByF) : Result × BByF :=
  assignFoldF
    (fun r color =>
      catchNull (findSavedAlbumBackfillForColor env color (getUsedAlbumIds r)
        minConf maxToScan))
    tag (missingColors st.1) st

/-- The artist / artist_wide backfill loop of computeResultsForRange. -/
def artistStage (env : Env) (minConf : ℚ)
    (topArtistsN albumsPerArtist candidateCap : Nat) (tag : String)
    (st : Result × BByF) : Result × BByF :=
  assignFoldF
    (fun r color =>
      catchNull (findArtistBackfillForColor env color (getUsedAlbumIds r)
        minConf topArtistsN albumsPerArtist candidateCap))
    tag (missingColors st.1) st

/-- The pool-based assignment loops of stages S4 and S5: the pick is copied
with the stage's source tag. -/
def poolAssignStage (pool : List Album) (minConf : ℚ) (tag : String)
    (st : Result × BByF) : Result × BByF :=
  assignFoldF
    (fun r color =>
      (pickBestMatchingFromPool pool color (getUsedAlbumIds r) minConf).map
        (fun p => { p with source := some tag }))
    tag (missingColors st.1) st

/-- The progressive-enrichment while loop of stage S4.  The source loops
while colors are missing and idx < MAX_TOTAL, enriching the next batch and
assigning with a zero confidence floor; fuel bounds the iteration count
(sufficient for every positive enrichBatch, and every strictness has
enrichBatch of at least 200). -/
def wideLoop (env : Env) (S : Strictness) :
    Nat → List Album → Nat → (Result × BByF) → Result × BByF
  | 0, _, _, st => st
  | fuel + 1, pool, idx, st =>
    if missingColors st.1 ≠ [] ∧ idx < min S.maxTotalEnrich pool.length then
      let pool2 := enrichMoreIfNeeded env pool idx S.enrichBatch
      let st2 := poolAssignStage pool2 0 "ultra_loose" st
      wideLoop env S fuel pool2 (idx + S.enrichBatch) st2
    else st

/-- Inner loop of the other-range gathering of the wide top-tracks pool. -/
def wideGatherOtherGo (env : Env) : List String → List Album →
    Except String (List Album)
  | [], pool => .ok pool
  | r :: rest, pool =>
    match gatherTopTrackCandidates env r
        { pages := 2, pageSize := 50, maxUnique := 240, timeWeight := 0.55 } with
    | .error e => .error e
    | .ok cands => wideGatherOtherGo env rest (pool ++ cands)

/-- The other-range gathering of the wide top-tracks pool. -/
def wideGatherOther (env : Env) (requestedRange : String)
    (allRanges : List String) (widePool : List Album) :
    Except String (List Album) :=
  wideGatherOtherGo env (allRanges.filter (fun r => r ≠ requestedRange)) widePool

/-- The wide top-tracks block of stage S4: gather the enlarged pool, enrich
the first FIRST entries, assign at the wide confidence floor, then run the
progressive-enrichment loop. -/
def wideTopBlock (env : Env) (S : Strictness) (requestedRange : String)
    (allRanges : List String) (st : Result × BByF) :
    Except String (Result × BByF) :=
  match gatherTopTrackCandidates env requestedRange
      { pages := S.topTrackPagesWide + 2, pageSize := 50, maxUnique := 340,
        timeWeight := 1 } with
  | .error e => .error e
  | .ok reqCands =>
  match wideGatherOther env requestedRange allRanges reqCands with
  | .error e => .error e
  | .ok widePool =>
  let first := min S.firstEnrich widePool.length
  let widePool2 := enrichFirst env widePool first
  let st2 := poolAssignStage widePool2 S.minConfWide "wide_top_tracks" st
  .ok (wideLoop env S (min S.maxTotalEnrich widePool2.length + 1) widePool2
    first st2)

/-- Stage S3 + S4 group: entered only when at least two buckets are
missing; the guard is evaluated once (the source if-block). -/
def widenGroup (env : Env) (S : Strictness) (requestedRange : String)
    (allRanges : List String) (st : Result × BByF) :
    Except String (Result × BByF) :=
  if 2 ≤ (missingColors st.1).length then
    let st2 := savedStage env S.minConfWide S.savedScanWide "saved_wide" st
    let st3 := artistStage env S.minConfWide (S.topArtistsN + 4)
      (S.albumsPerArtist + 6) (S.candidateCap + 80) "artist_wide" st2
    if (missingColors st3.1).length ≠ 0 then
      wideTopBlock env S requestedRange allRanges st3
    else .ok st3
  else .ok st

/-- Inner loop of the S5 candidate pool gathering. -/
def lastResortGatherGo (env : Env) : List String → List Album →
    Except String (List Album)
  | [], pool => .ok pool
  | r :: rest, pool =>
    let w : ℚ := if r = "short_term" then 0.6
      else if r = "medium_term" then 0.55 else 0.5
    match gatherTopTrackCandidates env r
        { pages := 2, pageSize := 50, maxUnique := 260, timeWeight := w } with
    | .error e => .error e
    | .ok cands => lastResortGatherGo env rest (pool ++ cands)

/-- Candidate pool of stage S5 (other time ranges, lower weights). -/
def lastResortGather (env : Env) (requestedRange : String)
    (allRanges : List String) : Except String (List Album) :=
  lastResortGatherGo env (allRanges.filter (fun r => r ≠ requestedRange)) []

/-- Stage S5, the other-ranges last resort: entered only when buckets are
still missing; enrich the first 420 pool entries, assign with no
confidence floor. -/
def lastResortStage (env : Env) (requestedRange : String)
    (allRanges : List String) (st : Result × BByF) :
    Except String (Result × BByF) :=
  if missingColors st.1 ≠ [] then
    match lastResortGather env requestedRange allRanges with
    | .error e => .error e
    | .ok pool =>
      let pool2 := enrichFirst env pool 420
      .ok (poolAssignStage pool2 0 "other_ranges_last" st)
  else .ok st

/-- Primary phase of computeResultsForRange: top tracks of the requested
range, artist bonus, dominance cap at 3.0, top 35, enrichment, per-color
tops and the first uniqueness pass.  Returns (limited, result). -/
def primaryPhase (env : Env) (requestedRange : String) (limit : Nat) :
    Except String (List Album × Result) :=
  let S := strictnessForRange requestedRange
  match gatherTopTrackCandidates env requestedRange
      { pages := 1, pageSize := limit, maxUnique := 260, timeWeight := 1 } with
  | .error e => .error e
  | .ok candidates =>
    let candidates2 := applyArtistBonus env candidates
    let limited := (sortByScoreDesc (candidates2.map
      (fun a => { a with score := min a.score 3 }))).take 35
    let limited2 := enrichWithDominant env limited
    let result := pickPrimary S requestedRange limited2
    .ok (limited2, enforceUniqueTops result)

/-- Backfill phase of computeResultsForRange: stages S1, S2, the widen
group, the last resort, then the final uniqueness pass. -/
def backfillPhase (env : Env) (S : Strictness) (requestedRange : String)
    (allRanges : List String) (result : Result) :
    Except String (Result × BByF) :=
  let st0 : Result × BByF := (result, fun _ => none)
  let st1 := savedStage env S.minConf S.savedScan "saved" st0
  let st2 := artistStage env S.minConf S.topArtistsN S.albumsPerArtist
    S.candidateCap "artist" st1
  match widenGroup env S requestedRange allRanges st2 with
  | .error e => .error e
  | .ok st3 =>
  match lastResortStage env requestedRange allRanges st3 with
  | .error e => .error e
  | .ok st4 => .ok (enforceUniqueTops st4.1, st4.2)

structure Output where
  analyzed : Nat
  result : Result
  method : String
  time_range : String
  backfilled_colors : List Color
  backfilled_by : BByF

instance : Inhabited Output :=
  ⟨{ analyzed := 0, result := buildEmptyResult, method := "",
     time_range := "", backfilled_colors := [], backfilled_by := fun _ => none }⟩

/-- Body of source computeResultsForRange (the computation behind the
compute cache and COMPUTE_INFLIGHT registration; every cached or joined
value is a value this body produced). -/
def computeResultsForRangeBody (env : Env) (requestedRange : String)
    (limit : Nat) (allRangesOpt : List String) : Except String Output :=
  let allRanges := if allRangesOpt.isEmpty then
    ["short_term", "medium_term", "long_term"] else allRangesOpt
  let S := strictnessForRange requestedRange
  match primaryPhase env requestedRange limit with
  | .error e => .error e
  | .ok pr =>
  match backfillPhase env S requestedRange allRanges pr.2 with
  | .error e => .error e
  | .ok bf =>
  .ok { analyzed := pr.1.length, result := bf.1,
         method := "bundle_ready_min_app_overrides_all_colors",
         time_range := requestedRange,
         backfilled_colors := COLOR_ORDER.filter (fun c => (bf.2 c).isSome),
         backfilled_by := bf.2 }

/-! ## Invariants of the result map -/

/-- Every non-null top carries a truthy catalog id (all candidate
construction sites skip falsy ids). -/
def TopsNonempty (r : Result) : Prop :=
  ∀ c t, (r c).top = some t → t.id ≠ ""

/-- No catalog id is the top of two different buckets. -/
def UniqueTops (r : Result) : Prop :=
  ∀ c1 c2 t1 t2, c1 ≠ c2 → (r c1).top = some t1 → (r c2).top = some t2 →
    t1.id ≠ t2.id

/-- No bucket's others list contains its own top's id. -/
def OthersOk (r : Result) : Prop :=
  ∀ c t, (r c).top = some t → ∀ x ∈ (r c).others, x.id ≠ t.id

/-- Every backfilled bucket has an empty others list. -/
def BfEmpty (st : Result × BByF) : Prop :=
  ∀ c, (st.2 c).isSome → (st.1 c).others = []

theorem setBucket_same (r : Result) (c : Color) (b : Bucket) :
    setBucket r c b c = b := by
  simp [setBucket]

theorem setBucket_other (r : Result) (c c2 : Color) (b : Bucket)
    (h : c2 ≠ c) : setBucket r c b c2 = r c2 := by
  simp [setBucket, h]

theorem setBBy_other (m : BByF) (c c2 : Color) (tag : String) (h : c2 ≠ c) :
    setBBy m c tag c2 = m c2 := by
  simp [setBBy, h]

theorem mem_missingColors (r : Result) (c : Color) :
    c ∈ missingColors r ↔ ((r c).top).isNone := by
  simp [missingColors, List.mem_filter, mem_COLOR_ORDER]

theorem usedStep_mono (r : Result) (used : List String) (c : Color)
    (x : String) (hx : x ∈ used) : x ∈ usedStep r used c := by
  unfold usedStep
  cases htc : (r c).top with
  | none => exact hx
  | some t =>
    show x ∈ if t.id ≠ "" ∧ t.id ∉ used then used ++ [t.id] else used
    by_cases hcond : t.id ≠ "" ∧ t.id ∉ used
    · rw [if_pos hcond]
      exact List.mem_append_left _ hx
    · rw [if_neg hcond]
      exact hx

theorem usedFold_mono (r : Result) (cs : List Color) (acc : List String)
    (x : String) (hx : x ∈ acc) : x ∈ cs.foldl (usedStep r) acc := by
  induction cs generalizing acc with
  | nil => exact hx
  | cons c rest ih => exact ih _ (usedStep_mono r acc c x hx)

theorem usedFold_complete (r : Result) (cs : List Color) (acc : List String)
    (c : Color) (hc : c ∈ cs) (t : Album) (htop : (r c).top = some t)
    (hid : t.id ≠ "") : t.id ∈ cs.foldl (usedStep r) acc := by
  induction cs generalizing acc with
  | nil => cases hc
  | cons c0 rest ih =>
    rcases List.mem_cons.mp hc with hc | hc
    · subst hc
      refine usedFold_mono r rest _ _ ?_
      unfold usedStep
      rw [htop]
      show t.id ∈ if t.id ≠ "" ∧ t.id ∉ acc then acc ++ [t.id] else acc
      by_cases hcond : t.id ≠ "" ∧ t.id ∉ acc
      · rw [if_pos hcond]
        exact List.mem_append_right _ (by simp)
      · rw [if_neg hcond]
        push_neg at hcond
        exact hcond hid
    · exact ih _ hc

theorem getUsedAlbumIds_complete (r : Result) (c : Color) (t : Album)
    (htop : (r c).top = some t) (hid : t.id ≠ "") :
    t.id ∈ getUsedAlbumIds r :=
  usedFold_complete r COLOR_ORDER [] c (mem_COLOR_ORDER c) t htop hid

theorem mapLookup_mapSet_self {V : Type} (m : List (String × V)) (k : String)
    (v : V) : mapLookup (mapSet m k v) k = some v := by
  induction m with
  | nil => simp [mapSet, mapLookup]
  | cons q rest ih =>
    obtain ⟨qk, qv⟩ := q
    by_cases hq : qk = k
    · simp [mapSet, mapLookup, hq]
    · simp [mapSet, mapLookup, hq, ih]

theorem mapLookup_mapSet_other {V : Type} (m : List (String × V))
    (k k2 : String) (v : V) (h : k2 ≠ k) :
    mapLookup (mapSet m k v) k2 = mapLookup m k2 := by
  have h2 : ¬ k = k2 := fun he => h he.symm
  induction m with
  | nil => simp [mapSet, mapLookup, h2]
  | cons q rest ih =>
    obtain ⟨qk, qv⟩ := q
    by_cases hq : qk = k
    · subst hq
      simp [mapSet, mapLookup, h2]
    · simp [mapSet, mapLookup, hq, ih]

/-! ## enforceUniqueTops: case equations and invariants -/

abbrev Seen := List (String × Color)

theorem enforceStep_eq_none (st : Result × Seen) (x : Color)
    (htc : (st.1 x).top = none) : enforceStep st x = st := by
  simp [enforceStep, htc]

theorem enforceStep_eq_blank (st : Result × Seen) (x : Color) (top : Album)
    (htc : (st.1 x).top = some top) (hid : top.id = "") :
    enforceStep st x = st := by
  simp [enforceStep, htc, hid]

theorem enforceStep_eq_new (st : Result × Seen) (x : Color) (top : Album)
    (htc : (st.1 x).top = some top) (hid : top.id ≠ "")
    (hlk : mapLookup st.2 top.id = none) :
    enforceStep st x = (st.1, mapSet st.2 top.id x) := by
  simp [enforceStep, htc, hid, hlk]

theorem enforceStep_eq_dupA (st : Result × Seen) (x : Color) (top : Album)
    (oc : Color) (htc : (st.1 x).top = some top) (hid : top.id ≠ "")
    (hlk : mapLookup st.2 top.id = some oc)
    (hcmp : cmpAlbumStrength (some top) (st.1 oc).top < 0) :
    enforceStep st x = (setBucket st.1 x { top := none, others := [] }, st.2) := by
  simp [enforceStep, htc, hid, hlk, hcmp]

theorem enforceStep_eq_dupB (st : Result × Seen) (x : Color) (top : Album)
    (oc : Color) (htc : (st.1 x).top = some top) (hid : top.id ≠ "")
    (hlk : mapLookup st.2 top.id = some oc)
    (hcmp : ¬ cmpAlbumStrength (some top) (st.1 oc).top < 0) :
    enforceStep st x =
      (setBucket st.1 oc { top := none, others := [] },
       mapSet st.2 top.id x) := by
  simp [enforceStep, htc, hid, hlk, hcmp]

theorem enforceStep_cases (st : Result × Seen) (x c : Color) :
    (enforceStep st x).1 c = st.1 c ∨
    (enforceStep st x).1 c = { top := none, others := [] } := by
  cases htc : (st.1 x).top with
  | none => rw [enforceStep_eq_none st x htc]; left; rfl
  | some top =>
    by_cases hid : top.id = ""
    · rw [enforceStep_eq_blank st x top htc hid]; left; rfl
    · cases hlk : mapLookup st.2 top.id with
      | none => rw [enforceStep_eq_new st x top htc hid hlk]; left; rfl
      | some oc =>
        by_cases hcmp : cmpAlbumStrength (some top) (st.1 oc).top < 0
        · rw [enforceStep_eq_dupA st x top oc htc hid hlk hcmp]
          by_cases hcx : c = x
          · subst hcx; right; exact setBucket_same _ _ _
          · left; exact setBucket_other _ _ _ _ hcx
        · rw [enforceStep_eq_dupB st x top oc htc hid hlk hcmp]
          by_cases hcx : c = oc
          · subst hcx; right; exact setBucket_same _ _ _
          · left; exact setBucket_other _ _ _ _ hcx

theorem enforce_clears_only (r : Result) (c : Color) :
    enforceUniqueTops r c = r c ∨
    enforceUniqueTops r c = { top := none, others := [] } := by
  have key : ∀ (cs : List Color) (st : Result × Seen),
      (st.1 c = r c ∨ st.1 c = { top := none, others := [] }) →
      ((cs.foldl enforceStep st).1 c = r c ∨
       (cs.foldl enforceStep st).1 c = { top := none, others := [] }) := by
    intro cs
    induction cs with
    | nil => intro st h; exact h
    | cons x rest ih =>
      intro st h
      refine ih _ ?_
      rcases enforceStep_cases st x c with h2 | h2
      · rw [h2]; exact h
      · right; exact h2
  exact key COLOR_ORDER (r, []) (Or.inl rfl)

theorem enforce_preserves_TopsNonempty (r : Result) (h : TopsNonempty r) :
    TopsNonempty (enforceUniqueTops r) := by
  intro c t htc
  rcases enforce_clears_only r c with he | he
  · exact h c t (he ▸ htc)
  · rw [he] at htc; cases htc

theorem enforce_preserves_OthersOk (r : Result) (h : OthersOk r) :
    OthersOk (enforceUniqueTops r) := by
  intro c t htc x hx
  rcases enforce_clears_only r c with he | he
  · rw [he] at htc hx
    exact h c t htc x hx
  · rw [he] at hx
    cases hx

/-- Consistency of the seen map with the still-unscanned colors: every
registered id points to a scanned color currently holding exactly that id
as its top, and every scanned color's truthy top id is registered to it. -/
def SeenConsistent (st : Result × Seen) (rest : List Color) : Prop :=
  (∀ id c, mapLookup st.2 id = some c →
     c ∉ rest ∧ ∃ t, (st.1 c).top = some t ∧ t.id = id ∧ id ≠ "") ∧
  (∀ c t, (st.1 c).top = some t → t.id ≠ "" → c ∉ rest →
     mapLookup st.2 t.id = some c)

theorem notMemCons {α : Type} {c x : α} {rest : List α} (h1 : c ≠ x)
    (h2 : c ∉ rest) : c ∉ x :: rest := by
  intro hm
  rcases List.mem_cons.mp hm with hm | hm
  · exact h1 hm
  · exact h2 hm

theorem enforceStep_seen (st : Result × Seen) (x : Color) (rest : List Color)
    (hxr : x ∉ rest) (hinv : SeenConsistent st (x :: rest)) :
    SeenConsistent (enforceStep st x) rest := by
  obtain ⟨ha, hb⟩ := hinv
  cases htc : (st.1 x).top with
  | none =>
    rw [enforceStep_eq_none st x htc]
    constructor
    · intro id c hlk
      obtain ⟨hc, t, ht1, ht2, ht3⟩ := ha id c hlk
      exact ⟨fun hm => hc (List.mem_cons_of_mem _ hm), t, ht1, ht2, ht3⟩
    · intro c t htop hid hcr
      by_cases hcx : c = x
      · subst hcx; rw [htop] at htc; cases htc
      · exact hb c t htop hid (notMemCons hcx hcr)
  | some top =>
    by_cases hid0 : top.id = ""
    · rw [enforceStep_eq_blank st x top htc hid0]
      constructor
      · intro id c hlk
        obtain ⟨hc, t, ht1, ht2, ht3⟩ := ha id c hlk
        exact ⟨fun hm => hc (List.mem_cons_of_mem _ hm), t, ht1, ht2, ht3⟩
      · intro c t htop hid hcr
        by_cases hcx : c = x
        · subst hcx
          rw [htop] at htc
          injection htc with he
          exact absurd hid0 (he ▸ hid)
        · exact hb c t htop hid (notMemCons hcx hcr)
    · cases hlk : mapLookup st.2 top.id with
      | none =>
        rw [enforceStep_eq_new st x top htc hid0 hlk]
        dsimp only [SeenConsistent]
        constructor
        · intro id c hlk2
          by_cases hidq : id = top.id
          · subst hidq
            rw [mapLookup_mapSet_self] at hlk2
            injection hlk2 with he
            subst he
            exact ⟨hxr, top, htc, rfl, hid0⟩
          · rw [mapLookup_mapSet_other _ _ _ _ hidq] at hlk2
            obtain ⟨hc, t, ht1, ht2, ht3⟩ := ha id c hlk2
            exact ⟨fun hm => hc (List.mem_cons_of_mem _ hm), t, ht1, ht2, ht3⟩
        · intro c t htop hid hcr
          by_cases hcx : c = x
          · subst hcx
            rw [htop] at htc
            injection htc with he
            rw [he]
            exact mapLookup_mapSet_self _ _ _
          · have hold := hb c t htop hid (notMemCons hcx hcr)
            by_cases hidq : t.id = top.id
            · rw [hidq] at hold
              rw [hold] at hlk
              cases hlk
            · rw [mapLookup_mapSet_other _ _ _ _ hidq]
              exact hold
      | some oc =>
        obtain ⟨hocr, t0, ht01, ht02, ht03⟩ := ha top.id oc hlk
        have hocx : oc ≠ x := fun he => hocr (he ▸ List.mem_cons_self x rest)
        by_cases hcmp : cmpAlbumStrength (some top) (st.1 oc).top < 0
        · rw [enforceStep_eq_dupA st x top oc htc hid0 hlk hcmp]
          dsimp only [SeenConsistent]
          constructor
          · intro id c hlk2
            obtain ⟨hc, t, ht1, ht2, ht3⟩ := ha id c hlk2
            have hcx : c ≠ x := fun he => hc (he ▸ List.mem_cons_self x rest)
            refine ⟨fun hm => hc (List.mem_cons_of_mem _ hm), t, ?_, ht2, ht3⟩
            rw [setBucket_other _ _ _ _ hcx]
            exact ht1
          · intro c t htop hid hcr
            by_cases hcx : c = x
            · subst hcx
              rw [setBucket_same] at htop
              cases htop
            · rw [setBucket_other _ _ _ _ hcx] at htop
              exact hb c t htop hid (notMemCons hcx hcr)
        · rw [enforceStep_eq_dupB st x top oc htc hid0 hlk hcmp]
          dsimp only [SeenConsistent]
          constructor
          · intro id c hlk2
            by_cases hidq : id = top.id
            · subst hidq
              rw [mapLookup_mapSet_self] at hlk2
              injection hlk2 with he
              subst he
              refine ⟨hxr, top, ?_, rfl, hid0⟩
              rw [setBucket_other _ _ _ _ (fun he2 => hocx he2.symm)]
              exact htc
            · rw [mapLookup_mapSet_other _ _ _ _ hidq] at hlk2
              obtain ⟨hc, t, ht1, ht2, ht3⟩ := ha id c hlk2
              have hcoc : c ≠ oc := by
                intro he
                subst he
                rw [ht01] at ht1
                injection ht1 with he2
                exact hidq (by rw [← ht2, ← he2]; exact ht02)
              refine ⟨fun hm => hc (List.mem_cons_of_mem _ hm), t, ?_, ht2, ht3⟩
              rw [setBucket_other _ _ _ _ hcoc]
              exact ht1
          · intro c t htop hid hcr
            by_cases hcoc : c = oc
            · subst hcoc
              rw [setBucket_same] at htop
              cases htop
            · rw [setBucket_other _ _ _ _ hcoc] at htop
              by_cases hcx : c = x
              · subst hcx
                rw [htop] at htc
                injection htc with he
                rw [he]
                exact mapLookup_mapSet_self _ _ _
              · have hold := hb c t htop hid (notMemCons hcx hcr)
                have hidq : t.id ≠ top.id := by
                  intro he
                  rw [he] at hold
                  rw [hold] at hlk
                  injection hlk with he2
                  exact hcoc he2
                rw [mapLookup_mapSet_other _ _ _ _ hidq]
                exact hold

theorem seen_init (r : Result) : SeenConsistent (r, ([] : Seen)) COLOR_ORDER := by
  constructor
  · intro id c hlk
    cases hlk
  · intro c t _ _ hcr
    exact absurd (mem_COLOR_ORDER c) hcr

theorem enforce_fold_seen : ∀ (cs : List Color), cs.Nodup →
    ∀ st : Result × Seen, SeenConsistent st cs →
    SeenConsistent (cs.foldl enforceStep st) [] := by
  intro cs
  induction cs with
  | nil => intro _ st h; exact h
  | cons x rest ih =>
    intro hnd st h
    have hx : x ∉ rest := (List.nodup_cons.mp hnd).1
    exact ih (List.nodup_cons.mp hnd).2 _ (enforceStep_seen st x rest hx h)

theorem enforce_UniqueTops (r : Result) (h : TopsNonempty r) :
    UniqueTops (enforceUniqueTops r) := by
  have hnd : COLOR_ORDER.Nodup := by decide
  have hfin := enforce_fold_seen COLOR_ORDER hnd (r, []) (seen_init r)
  intro c1 c2 t1 t2 hne h1 h2
  have hTN := enforce_preserves_TopsNonempty r h
  have hid1 : t1.id ≠ "" := hTN c1 t1 h1
  have hid2 : t2.id ≠ "" := hTN c2 t2 h2
  intro heq
  have hl1 := hfin.2 c1 t1 h1 hid1 (List.not_mem_nil c1)
  have hl2 := hfin.2 c2 t2 h2 hid2 (List.not_mem_nil c2)
  rw [heq] at hl1
  rw [hl1] at hl2
  injection hl2 with he
  exact hne he

theorem enforce_id_of_unique (r : Result) (hu : UniqueTops r) :
    enforceUniqueTops r = r := by
  have hnd : COLOR_ORDER.Nodup := by decide
  have key : ∀ (cs : List Color), cs.Nodup → ∀ st : Result × Seen,
      st.1 = r → SeenConsistent st cs → (cs.foldl enforceStep st).1 = r := by
    intro cs
    induction cs with
    | nil =>
      intro _ st h _
      exact h
    | cons x rest ih =>
      intro hnd2 st h hinv
      have hx := (List.nodup_cons.mp hnd2).1
      have hstep1 : (enforceStep st x).1 = st.1 := by
        cases htc : (st.1 x).top with
        | none => rw [enforceStep_eq_none st x htc]
        | some top =>
          by_cases hid0 : top.id = ""
          · rw [enforceStep_eq_blank st x top htc hid0]
          · cases hlk : mapLookup st.2 top.id with
            | none => rw [enforceStep_eq_new st x top htc hid0 hlk]
            | some oc =>
              exfalso
              obtain ⟨hocr, t0, ht01, ht02, ht03⟩ := hinv.1 top.id oc hlk
              have hocx : oc ≠ x :=
                fun he => hocr (he ▸ List.mem_cons_self x rest)
              rw [h] at htc ht01
              have hne := hu x oc top t0 (fun he => hocx he.symm) htc ht01
              exact hne ht02.symm
      have hinv2 := enforceStep_seen st x rest hx hinv
      exact ih (List.nodup_cons.mp hnd2).2 _ (hstep1.trans h) hinv2
  have hfin := key COLOR_ORDER hnd (r, []) rfl (seen_init r)
  exact hfin

/-! ## Backfill picks are fresh (truthy id, outside the used set) -/

theorem strTruthy_ne (o : Option String) (s : String)
    (h : strTruthy o = some s) : s ≠ "" := by
  unfold strTruthy at h
  split at h
  next s2 =>
    split at h
    next h2 => cases h
    next h2 =>
      injection h with he
      rw [← he]
      exact h2
  next => cases h

/-- A possibly-found pick with a truthy id outside the used set. -/
def GoodO (used : List String) (o : Option Album) : Prop :=
  ∀ p, o = some p → p.id ≠ "" ∧ p.id ∉ used

theorem goodO_none (used : List String) : GoodO used none := by
  intro p hp
  cases hp

theorem foldl_preserve {α β : Type} (P : β → Prop) (f : β → α → β)
    (hf : ∀ b a, P b → P (f b a)) :
    ∀ (l : List α) (b : β), P b → P (l.foldl f b) := by
  intro l
  induction l with
  | nil => intro b h; exact h
  | cons a rest ih => intro b h; exact ih _ (hf b a h)

theorem savedConsider_good (tc : Color) (minConf : ℚ) (alb : RawAlbum)
    (idStr image : String) (d : Dom) (best : Option Album)
    (used : List String) (h : GoodO used best) (hid : idStr ≠ "")
    (hused : idStr ∉ used) :
    GoodO used (savedConsider tc minConf alb idStr image d best) := by
  intro p hp
  unfold savedConsider at hp
  split at hp
  · exact h p hp
  · split at hp
    · exact h p hp
    · split at hp
      · exact h p hp
      · split at hp
        · injection hp with he
          rw [← he]
          exact ⟨hid, hused⟩
        · split at hp
          · injection hp with he
            rw [← he]
            exact ⟨hid, hused⟩
          · exact h p hp

theorem savedItemStep_good (env : Env) (tc : Color) (used : List String)
    (minConf : ℚ) (best : Option Album) (it : SavedItem)
    (h : GoodO used best) :
    GoodO used (savedItemStep env tc used minConf best it) := by
  intro p hp
  unfold savedItemStep at hp
  split at hp
  · exact h p hp
  · split at hp
    · exact h p hp
    next idStr hid =>
      split at hp
      · exact h p hp
      next hused =>
        split at hp
        · exact h p hp
        · split at hp
          · exact h p hp
          next image himg =>
            exact savedConsider_good tc minConf _ idStr image _ best used h
              (strTruthy_ne _ _ hid) hused p hp

theorem findSavedPages_good (env : Env) (tc : Color) (used : List String)
    (minConf : ℚ) :
    ∀ (pages p : Nat) (best : Option Album), GoodO used best →
    ∀ res, findSavedPages env tc used minConf pages p best = .ok res →
    GoodO used res := by
  intro pages
  induction pages with
  | zero =>
    intro p best h res hres
    injection hres with he
    rw [← he]
    exact h
  | succ n ih =>
    intro p best h res hres
    unfold findSavedPages at hres
    split at hres
    next e heq => cases hres
    next items heq =>
      have hfold : GoodO used
          (items.foldl (savedItemStep env tc used minConf) best) :=
        foldl_preserve (GoodO used) _
          (fun b a hb => savedItemStep_good env tc used minConf b a hb) items
          best h
      dsimp only at hres
      split at hres
      · injection hres with he
        rw [← he]
        exact hfold
      · exact ih _ _ hfold res hres

theorem findSaved_good (env : Env) (tc : Color) (used : List String)
    (minConf : ℚ) (maxToScan : Nat) (res : Option Album)
    (hres : findSavedAlbumBackfillForColor env tc used minConf maxToScan =
      .ok res) : GoodO used res :=
  findSavedPages_good env tc used minConf _ 0 none (goodO_none used) res hres

theorem pickBestMatchingFromPool_good (pool : List Album) (tc : Color)
    (used : List String) (minConf : ℚ) :
    GoodO used (pickBestMatchingFromPool pool tc used minConf) := by
  unfold pickBestMatchingFromPool
  refine foldl_preserve (GoodO used) _ ?_ pool none (goodO_none used)
  intro best a hb
  intro p hp
  split at hp
  · exact hb p hp
  next hfresh =>
    push_neg at hfresh
    split at hp
    · exact hb p hp
    · split at hp
      · exact hb p hp
      · split at hp
        · exact hb p hp
        · split at hp
          · injection hp with he
            rw [← he]
            exact hfresh
          · split at hp
            · injection hp with he
              rw [← he]
              exact hfresh
            · exact hb p hp

/-- Goodness of one concrete album: a nonempty id outside the used set. -/
def GoodA (used : List String) (a : Album) : Prop :=
  a.id ≠ "" ∧ a.id ∉ used

theorem foldl_preserve_mem {α β : Type} (P : β → Prop) (f : β → α → β)
    (l : List α) (hf : ∀ b a, a ∈ l → P b → P (f b a)) :
    ∀ (b : β), P b → P (l.foldl f b) := by
  induction l with
  | nil => intro b h; exact h
  | cons a rest ih =>
    intro b h
    exact ih (fun b2 a2 hm h2 => hf b2 a2 (List.mem_cons_of_mem a hm) h2) _
      (hf b a (List.mem_cons_self a rest) h)

theorem artistItemsCollect_good (used : List String) (cap : Nat) :
    ∀ (items : List RawAlbum) (seen : List String) (cands : List Album),
    (∀ a ∈ cands, GoodA used a) →
    ∀ a ∈ (artistItemsCollect used cap items seen cands).2, GoodA used a := by
  intro items
  induction items with
  | nil => intro seen cands h; exact h
  | cons item rest ih =>
    intro seen cands h
    unfold artistItemsCollect
    split
    · exact ih seen cands h
    next idStr hid =>
      split
      · exact ih seen cands h
      next hnu =>
        split
        · exact ih seen cands h
        · split
          · exact ih seen cands h
          · split
            · exact ih seen cands h
            next image himg =>
              have hgood : ∀ a ∈ cands ++
                  [{ id := idStr, name := item.name,
                     artist := joinArtistNames item.artistNames,
                     image := some image, total_tracks := item.total_tracks,
                     source := some "artist", score := 0, count := 0,
                     appearances := none, hex := none,
                     confidence := none }], GoodA used a := by
                intro a ha
                rcases List.mem_append.mp ha with hm | hm
                · exact h a hm
                · rcases List.mem_singleton.mp hm with rfl
                  exact ⟨strTruthy_ne item.id idStr hid, hnu⟩
              dsimp only
              split
              · exact hgood
              · exact ih _ _ hgood

theorem artistsCollect_good (env : Env) (used : List String)
    (albumsPerArtist cap : Nat) :
    ∀ (arts : List TopArtist) (seen : List String) (cands : List Album),
    (∀ a ∈ cands, GoodA used a) →
    ∀ res, artistsCollect env used albumsPerArtist cap arts seen cands =
      .ok res → ∀ a ∈ res, GoodA used a := by
  intro arts
  induction arts with
  | nil =>
    intro seen cands h res hres
    injection hres with he
    rw [← he]
    exact h
  | cons ar rest ih =>
    intro seen cands h res hres
    unfold artistsCollect at hres
    split at hres
    next e heq => cases hres
    next items heq =>
      have hcol := artistItemsCollect_good used cap items seen cands h
      dsimp only at hres
      split at hres
      · injection hres with he
        rw [← he]
        exact hcol
      · exact ih _ _ hcol res hres

theorem artistConsider_good (tc : Color) (minConf : ℚ) (c : Album) (d : Dom)
    (best : Option Album) (used : List String) (h : GoodO used best)
    (hc : GoodA used c) :
    GoodO used (artistConsider tc minConf c d best) := by
  intro p hp
  unfold artistConsider at hp
  split at hp
  · exact h p hp
  · split at hp
    · exact h p hp
    · split at hp
      · exact h p hp
      · dsimp only at hp
        split at hp
        · injection hp with he
          rw [← he]
          exact hc
        · split at hp
          · injection hp with he
            rw [← he]
            exact hc
          · exact h p hp

theorem findArtist_good (env : Env) (tc : Color) (used : List String)
    (minConf : ℚ) (topArtistsN albumsPerArtist cap : Nat) (res : Option Album)
    (hres : findArtistBackfillForColor env tc used minConf topArtistsN
      albumsPerArtist cap = .ok res) : GoodO used res := by
  unfold findArtistBackfillForColor at hres
  split at hres
  next e heq => cases hres
  next artists heq =>
    split at hres
    next e heq2 => cases hres
    next candidates heq2 =>
      injection hres with he
      rw [← he]
      have hcands : ∀ a ∈ candidates, GoodA used a :=
        artistsCollect_good env used albumsPerArtist cap artists [] []
          (by intro a ha; cases ha) candidates heq2
      refine foldl_preserve_mem (GoodO used) _ candidates ?_ none
        (goodO_none used)
      intro b a ha hb
      exact artistConsider_good tc minConf a _ b used hb (hcands a ha)

/-! ## Stage invariants: every backfill pick is fresh, so assignments keep
the result well-formed -/

/-- A stage pick function is good when every hit has a truthy id outside
the used-id set computed from the result it was given. -/
def GoodPickF (pickF : Result → Color → Option Album) : Prop :=
  ∀ r c p, pickF r c = some p → p.id ≠ "" ∧ p.id ∉ getUsedAlbumIds r

/-- The running invariant of the backfill state. -/
def StInv (st : Result × BByF) : Prop :=
  TopsNonempty st.1 ∧ UniqueTops st.1 ∧ OthersOk st.1 ∧ BfEmpty st

theorem assignStep_inv (pickF : Result → Color → Option Album) (tag : String)
    (hgood : GoodPickF pickF) (st : Result × BByF) (c0 : Color)
    (h : StInv st) : StInv (assignStep pickF tag st c0) := by
  obtain ⟨hTN, hUT, hOO, hBF⟩ := h
  cases hpk : pickF st.1 c0 with
  | none =>
    have hstep : assignStep pickF tag st c0 = st := by simp [assignStep, hpk]
    rw [hstep]
    exact ⟨hTN, hUT, hOO, hBF⟩
  | some p =>
    obtain ⟨hpid, hpused⟩ := hgood st.1 c0 p hpk
    have hstep : assignStep pickF tag st c0 =
        (setBucket st.1 c0 { top := some p, others := [] },
         setBBy st.2 c0 tag) := by
      simp [assignStep, hpk]
    rw [hstep]
    refine ⟨?_, ?_, ?_, ?_⟩
    · intro c t htc
      dsimp only at htc
      by_cases hcx : c = c0
      · subst hcx
        rw [setBucket_same] at htc
        have h2 : some p = some t := htc
        injection h2 with he
        rw [← he]
        exact hpid
      · rw [setBucket_other _ _ _ _ hcx] at htc
        exact hTN c t htc
    · intro c1 c2 t1 t2 hne h1 h2
      dsimp only at h1 h2
      by_cases h1x : c1 = c0
      · subst h1x
        have h2x : c2 ≠ c1 := fun he => hne he.symm
        rw [setBucket_same] at h1
        rw [setBucket_other _ _ _ _ h2x] at h2
        have hp1 : some p = some t1 := h1
        injection hp1 with he1
        rw [← he1]
        by_cases ht2e : t2.id = ""
        · rw [ht2e]
          exact hpid
        · intro hcontra
          exact hpused (hcontra ▸ getUsedAlbumIds_complete st.1 c2 t2 h2 ht2e)
      · rw [setBucket_other _ _ _ _ h1x] at h1
        by_cases h2x : c2 = c0
        · subst h2x
          rw [setBucket_same] at h2
          have hp2 : some p = some t2 := h2
          injection hp2 with he2
          rw [← he2]
          by_cases ht1e : t1.id = ""
          · rw [ht1e]
            exact fun hcontra => hpid hcontra.symm
          · intro hcontra
            exact hpused
              (hcontra ▸ getUsedAlbumIds_complete st.1 c1 t1 h1 ht1e)
        · rw [setBucket_other _ _ _ _ h2x] at h2
          exact hUT c1 c2 t1 t2 hne h1 h2
    · intro c t htc x hx
      dsimp only at htc hx
      by_cases hcx : c = c0
      · subst hcx
        rw [setBucket_same] at hx
        have hx2 : x ∈ ([] : List Album) := hx
        cases hx2
      · rw [setBucket_other _ _ _ _ hcx] at htc hx
        exact hOO c t htc x hx
    · intro c hc
      dsimp only at hc ⊢
      by_cases hcx : c = c0
      · subst hcx
        rw [setBucket_same]
      · rw [setBBy_other _ _ _ _ hcx] at hc
        rw [setBucket_other _ _ _ _ hcx]
        exact hBF c hc

theorem assignFold_inv (pickF : Result → Color → Option Album) (tag : String)
    (hgood : GoodPickF pickF) (cs : List Color) (st : Result × BByF)
    (h : StInv st) : StInv (assignFoldF pickF tag cs st) :=
  foldl_preserve StInv _
    (fun b a hb => assignStep_inv pickF tag hgood b a hb) cs st h

theorem catchNull_good (used : List String) (e : Except String (Option Album))
    (h : ∀ res, e = .ok res → GoodO used res) : GoodO used (catchNull e) := by
  cases e with
  | ok v => exact h v rfl
  | error e2 => exact goodO_none used

theorem savedPick_good (env : Env) (minConf : ℚ) (maxToScan : Nat) :
    GoodPickF (fun r color =>
      catchNull (findSavedAlbumBackfillForColor env color (getUsedAlbumIds r)
        minConf maxToScan)) := by
  intro r c p hp
  exact catchNull_good (getUsedAlbumIds r) _
    (fun res hres =>
      findSaved_good env c (getUsedAlbumIds r) minConf maxToScan res hres)
    p hp

theorem artistPick_good (env : Env) (minConf : ℚ)
    (topArtistsN albumsPerArtist cap : Nat) :
    GoodPickF (fun r color =>
      catchNull (findArtistBackfillForColor env color (getUsedAlbumIds r)
        minConf topArtistsN albumsPerArtist cap)) := by
  intro r c p hp
  exact catchNull_good (getUsedAlbumIds r) _
    (fun res hres =>
      findArtist_good env c (getUsedAlbumIds r) minConf topArtistsN
        albumsPerArtist cap res hres)
    p hp

theorem poolPick_good (pool : List Album) (minConf : ℚ) (tag : String) :
    GoodPickF (fun r color =>
      (pickBestMatchingFromPool pool color (getUsedAlbumIds r) minConf).map
        (fun p => { p with source := some tag })) := by
  intro r c p hp
  rw [Option.map_eq_some'] at hp
  obtain ⟨q, hq, he⟩ := hp
  have hg := pickBestMatchingFromPool_good pool c (getUsedAlbumIds r) minConf q hq
  rw [← he]
  exact hg

theorem savedStage_inv (env : Env) (minConf : ℚ) (maxToScan : Nat)
    (tag : String) (st : Result × BByF) (h : StInv st) :
    StInv (savedStage env minConf maxToScan tag st) := by
  unfold savedStage
  exact assignFold_inv _ tag (savedPick_good env minConf maxToScan)
    (missingColors st.1) st h

theorem artistStage_inv (env : Env) (minConf : ℚ)
    (topArtistsN albumsPerArtist cap : Nat) (tag : String) (st : Result × BByF)
    (h : StInv st) :
    StInv (artistStage env minConf topArtistsN albumsPerArtist cap tag st) := by
  unfold artistStage
  exact assignFold_inv _ tag
    (artistPick_good env minConf topArtistsN albumsPerArtist cap)
    (missingColors st.1) st h

theorem poolAssignStage_inv (pool : List Album) (minConf : ℚ) (tag : String)
    (st : Result × BByF) (h : StInv st) :
    StInv (poolAssignStage pool minConf tag st) := by
  unfold poolAssignStage
  exact assignFold_inv _ tag (poolPick_good pool minConf tag)
    (missingColors st.1) st h

theorem wideLoop_inv (env : Env) (S : Strictness) :
    ∀ (fuel : Nat) (pool : List Album) (idx : Nat) (st : Result × BByF),
    StInv st → StInv (wideLoop env S fuel pool idx st) := by
  intro fuel
  induction fuel with
  | zero => intro pool idx st h; exact h
  | succ n ih =>
    intro pool idx st h
    unfold wideLoop
    split
    · exact ih _ _ _ (poolAssignStage_inv _ _ _ _ h)
    · exact h

theorem wideTopBlock_inv (env : Env) (S : Strictness) (rr : String)
    (ar : List String) (st st2 : Result × BByF)
    (hres : wideTopBlock env S rr ar st = .ok st2) (h : StInv st) :
    StInv st2 := by
  unfold wideTopBlock at hres
  split at hres
  next e heq => cases hres
  next reqCands heq =>
    split at hres
    next e heq2 => cases hres
    next widePool heq2 =>
      dsimp only at hres
      injection hres with he
      rw [← he]
      exact wideLoop_inv env S _ _ _ _ (poolAssignStage_inv _ _ _ _ h)

theorem widenGroup_inv (env : Env) (S : Strictness) (rr : String)
    (ar : List String) (st st3 : Result × BByF)
    (hres : widenGroup env S rr ar st = .ok st3) (h : StInv st) :
    StInv st3 := by
  unfold widenGroup at hres
  split at hres
  · dsimp only at hres
    split at hres
    · exact wideTopBlock_inv env S rr ar _ st3 hres
        (artistStage_inv _ _ _ _ _ _ _ (savedStage_inv _ _ _ _ _ h))
    · injection hres with he
      rw [← he]
      exact artistStage_inv _ _ _ _ _ _ _ (savedStage_inv _ _ _ _ _ h)
  · injection hres with he
    rw [← he]
    exact h

theorem lastResortStage_inv (env : Env) (rr : String) (ar : List String)
    (st st4 : Result × BByF) (hres : lastResortStage env rr ar st = .ok st4)
    (h : StInv st) : StInv st4 := by
  unfold lastResortStage at hres
  split at hres
  · split at hres
    next e heq => cases hres
    next pool heq =>
      dsimp only at hres
      injection hres with he
      rw [← he]
      exact poolAssignStage_inv _ _ _ _ h
  · injection hres with he
    rw [← he]
    exact h

theorem backfillPhase_inv (env : Env) (S : Strictness) (rr : String)
    (ar : List String) (result : Result) (bf : Result × BByF)
    (hres : backfillPhase env S rr ar result = .ok bf)
    (hTN : TopsNonempty result) (hUT : UniqueTops result)
    (hOO : OthersOk result) :
    TopsNonempty bf.1 ∧ UniqueTops bf.1 ∧ OthersOk bf.1 ∧ BfEmpty bf := by
  have h0 : StInv (result, fun _ => none) := by
    refine ⟨hTN, hUT, hOO, ?_⟩
    intro c hc
    simp at hc
  unfold backfillPhase at hres
  dsimp only at hres
  split at hres
  next e heq => cases hres
  next st3 heq =>
    split at hres
    next e heq2 => cases hres
    next st4 heq2 =>
      injection hres with he
      have h2 := savedStage_inv env S.minConf S.savedScan "saved" _ h0
      have h3 := artistStage_inv env S.minConf S.topArtistsN S.albumsPerArtist
        S.candidateCap "artist" _ h2
      have h4 := widenGroup_inv env S rr ar _ st3 heq h3
      have h5 := lastResortStage_inv env rr ar st3 st4 heq2 h4
      obtain ⟨hTN5, hUT5, hOO5, hBF5⟩ := h5
      rw [← he]
      refine ⟨?_, ?_, ?_, ?_⟩
      · exact enforce_preserves_TopsNonempty _ hTN5
      · exact enforce_UniqueTops _ hTN5
      · exact enforce_preserves_OthersOk _ hOO5
      · intro c hc
        dsimp only at hc ⊢
        rw [enforce_id_of_unique _ hUT5]
        exact hBF5 c hc

/-! ## Filled buckets are frozen: stages only assign to missing colors -/

theorem assignStep_untouched (pickF : Result → Color → Option Album)
    (tag : String) (st : Result × BByF) (c0 c : Color) (hne : c ≠ c0) :
    (assignStep pickF tag st c0).1 c = st.1 c ∧
    (assignStep pickF tag st c0).2 c = st.2 c := by
  cases hpk : pickF st.1 c0 with
  | none =>
    have hstep : assignStep pickF tag st c0 = st := by simp [assignStep, hpk]
    rw [hstep]
    exact ⟨rfl, rfl⟩
  | some p =>
    have hstep : assignStep pickF tag st c0 =
        (setBucket st.1 c0 { top := some p, others := [] },
         setBBy st.2 c0 tag) := by
      simp [assignStep, hpk]
    rw [hstep]
    exact ⟨setBucket_other _ _ _ _ hne, setBBy_other _ _ _ _ hne⟩

theorem assignFold_untouched (pickF : Result → Color → Option Album)
    (tag : String) :
    ∀ (cs : List Color) (st : Result × BByF) (c : Color), c ∉ cs →
    (assignFoldF pickF tag cs st).1 c = st.1 c ∧
    (assignFoldF pickF tag cs st).2 c = st.2 c := by
  intro cs
  induction cs with
  | nil => intro st c _; exact ⟨rfl, rfl⟩
  | cons x rest ih =>
    intro st c hc
    have hcx : c ≠ x := fun he => hc (he ▸ List.mem_cons_self x rest)
    have hcr : c ∉ rest := fun hm => hc (List.mem_cons_of_mem x hm)
    have h1 := assignStep_untouched pickF tag st x c hcx
    have h2 := ih (assignStep pickF tag st x) c hcr
    exact ⟨h2.1.trans h1.1, h2.2.trans h1.2⟩

theorem filled_not_missing (r : Result) (c : Color) (t : Album)
    (htc : (r c).top = some t) : c ∉ missingColors r := by
  intro hm
  rw [mem_missingColors, htc] at hm
  simp at hm

theorem savedStage_untouched (env : Env) (minConf : ℚ) (maxToScan : Nat)
    (tag : String) (st : Result × BByF) (c : Color) (t : Album)
    (htc : (st.1 c).top = some t) :
    (savedStage env minConf maxToScan tag st).1 c = st.1 c ∧
    (savedStage env minConf maxToScan tag st).2 c = st.2 c := by
  unfold savedStage
  exact assignFold_untouched _ tag (missingColors st.1) st c
    (filled_not_missing st.1 c t htc)

theorem artistStage_untouched (env : Env) (minConf : ℚ)
    (topArtistsN albumsPerArtist cap : Nat) (tag : String) (st : Result × BByF)
    (c : Color) (t : Album) (htc : (st.1 c).top = some t) :
    (artistStage env minConf topArtistsN albumsPerArtist cap tag st).1 c =
      st.1 c ∧
    (artistStage env minConf topArtistsN albumsPerArtist cap tag st).2 c =
      st.2 c := by
  unfold artistStage
  exact assignFold_untouched _ tag (missingColors st.1) st c
    (filled_not_missing st.1 c t htc)

theorem poolAssignStage_untouched (pool : List Album) (minConf : ℚ)
    (tag : String) (st : Result × BByF) (c : Color) (t : Album)
    (htc : (st.1 c).top = some t) :
    (poolAssignStage pool minConf tag st).1 c = st.1 c ∧
    (poolAssignStage pool minConf tag st).2 c = st.2 c := by
  unfold poolAssignStage
  exact assignFold_untouched _ tag (missingColors st.1) st c
    (filled_not_missing st.1 c t htc)

theorem wideLoop_untouched (env : Env) (S : Strictness) :
    ∀ (fuel : Nat) (pool : List Album) (idx : Nat) (st : Result × BByF)
    (c : Color) (t : Album), (st.1 c).top = some t →
    (wideLoop env S fuel pool idx st).1 c = st.1 c ∧
    (wideLoop env S fuel pool idx st).2 c = st.2 c := by
  intro fuel
  induction fuel with
  | zero => intro pool idx st c t _; exact ⟨rfl, rfl⟩
  | succ n ih =>
    intro pool idx st c t htc
    unfold wideLoop
    split
    · have h1 := poolAssignStage_untouched
        (enrichMoreIfNeeded env pool idx S.enrichBatch) 0 "ultra_loose" st c t
        htc
      have htc2 : ((poolAssignStage
          (enrichMoreIfNeeded env pool idx S.enrichBatch) 0 "ultra_loose"
          st).1 c).top = some t := by
        rw [h1.1]
        exact htc
      have h2 := ih (enrichMoreIfNeeded env pool idx S.enrichBatch)
        (idx + S.enrichBatch) _ c t htc2
      exact ⟨h2.1.trans h1.1, h2.2.trans h1.2⟩
    · exact ⟨rfl, rfl⟩

theorem wideTopBlock_untouched (env : Env) (S : Strictness) (rr : String)
    (ar : List String) (st st2 : Result × BByF) (c : Color) (t : Album)
    (hres : wideTopBlock env S rr ar st = .ok st2)
    (htc : (st.1 c).top = some t) :
    st2.1 c = st.1 c ∧ st2.2 c = st.2 c := by
  unfold wideTopBlock at hres
  split at hres
  next e heq => cases hres
  next reqCands heq =>
    split at hres
    next e heq2 => cases hres
    next widePool heq2 =>
      dsimp only at hres
      injection hres with he
      rw [← he]
      have h1 := poolAssignStage_untouched
        (enrichFirst env widePool (min S.firstEnrich widePool.length))
        S.minConfWide "wide_top_tracks" st c t htc
      have htc2 : ((poolAssignStage
          (enrichFirst env widePool (min S.firstEnrich widePool.length))
          S.minConfWide "wide_top_tracks" st).1 c).top = some t := by
        rw [h1.1]
        exact htc
      have h2 := wideLoop_untouched env S
        (min S.maxTotalEnrich
          (enrichFirst env widePool (min S.firstEnrich widePool.length)).length
          + 1)
        (enrichFirst env widePool (min S.firstEnrich widePool.length))
        (min S.firstEnrich widePool.length)
        (poolAssignStage
          (enrichFirst env widePool (min S.firstEnrich widePool.length))
          S.minConfWide "wide_top_tracks" st) c t htc2
      exact ⟨h2.1.trans h1.1, h2.2.trans h1.2⟩

theorem widenGroup_untouched (env : Env) (S : Strictness) (rr : String)
    (ar : List String) (st st3 : Result × BByF) (c : Color) (t : Album)
    (hres : widenGroup env S rr ar st = .ok st3)
    (htc : (st.1 c).top = some t) :
    st3.1 c = st.1 c ∧ st3.2 c = st.2 c := by
  unfold widenGroup at hres
  split at hres
  · dsimp only at hres
    have h1 := savedStage_untouched env S.minConfWide S.savedScanWide
      "saved_wide" st c t htc
    have htc1 : ((savedStage env S.minConfWide S.savedScanWide "saved_wide"
        st).1 c).top = some t := by
      rw [h1.1]
      exact htc
    have h2 := artistStage_untouched env S.minConfWide (S.topArtistsN + 4)
      (S.albumsPerArtist + 6) (S.candidateCap + 80) "artist_wide" _ c t htc1
    have htc2 : ((artistStage env S.minConfWide (S.topArtistsN + 4)
        (S.albumsPerArtist + 6) (S.candidateCap + 80) "artist_wide"
        (savedStage env S.minConfWide S.savedScanWide "saved_wide" st)).1
        c).top = some t := by
      rw [h2.1]
      exact htc1
    split at hres
    · have h3 := wideTopBlock_untouched env S rr ar _ st3 c t hres htc2
      exact ⟨(h3.1.trans h2.1).trans h1.1, (h3.2.trans h2.2).trans h1.2⟩
    · injection hres with he
      rw [← he]
      exact ⟨h2.1.trans h1.1, h2.2.trans h1.2⟩
  · injection hres with he
    rw [← he]
    exact ⟨rfl, rfl⟩

theorem lastResortStage_untouched (env : Env) (rr : String) (ar : List String)
    (st st4 : Result × BByF) (c : Color) (t : Album)
    (hres : lastResortStage env rr ar st = .ok st4)
    (htc : (st.1 c).top = some t) :
    st4.1 c = st.1 c ∧ st4.2 c = st.2 c := by
  unfold lastResortStage at hres
  split at hres
  · split at hres
    next e heq => cases hres
    next pool heq =>
      dsimp only at hres
      injection hres with he
      rw [← he]
      exact poolAssignStage_untouched (enrichFirst env pool 420) 0
        "other_ranges_last" st c t htc
  · injection hres with he
    rw [← he]
    exact ⟨rfl, rfl⟩

theorem backfillPhase_untouched (env : Env) (S : Strictness) (rr : String)
    (ar : List String) (result : Result) (bf : Result × BByF) (c : Color)
    (t : Album) (hres : backfillPhase env S rr ar result = .ok bf)
    (hTN : TopsNonempty result) (hUT : UniqueTops result)
    (hOO : OthersOk result) (htc : (result c).top = some t) :
    bf.1 c = result c := by
  have h0 : StInv (result, fun _ => none) := by
    refine ⟨hTN, hUT, hOO, ?_⟩
    intro c2 hc2
    simp at hc2
  unfold backfillPhase at hres
  dsimp only at hres
  split at hres
  next e heq => cases hres
  next st3 heq =>
    split at hres
    next e heq2 => cases hres
    next st4 heq2 =>
      injection hres with he
      have h1 := savedStage_untouched env S.minConf S.savedScan "saved"
        (result, fun _ => none) c t htc
      have htc1 : ((savedStage env S.minConf S.savedScan "saved"
          (result, fun _ => none)).1 c).top = some t := by
        rw [h1.1]
        exact htc
      have h2 := artistStage_untouched env S.minConf S.topArtistsN
        S.albumsPerArtist S.candidateCap "artist" _ c t htc1
      have htc2 : ((artistStage env S.minConf S.topArtistsN S.albumsPerArtist
          S.candidateCap "artist"
          (savedStage env S.minConf S.savedScan "saved"
            (result, fun _ => none))).1 c).top = some t := by
        rw [h2.1]
        exact htc1
      have h3 := widenGroup_untouched env S rr ar _ st3 c t heq htc2
      have htc3 : (st3.1 c).top = some t := by
        rw [h3.1]
        exact htc2
      have h4 := lastResortStage_untouched env rr ar st3 st4 c t heq2 htc3
      have hinv2 := savedStage_inv env S.minConf S.savedScan "saved" _ h0
      have hinv3 := artistStage_inv env S.minConf S.topArtistsN
        S.albumsPerArtist S.candidateCap "artist" _ hinv2
      have hinv4 := widenGroup_inv env S rr ar _ st3 heq hinv3
      have hinv5 := lastResortStage_inv env rr ar st3 st4 heq2 hinv4
      rw [← he]
      dsimp only
      rw [enforce_id_of_unique _ hinv5.2.1]
      exact ((h4.1.trans h3.1).trans h2.1).trans h1.1

/-! ## Every gathered candidate carries a truthy catalog id -/

theorem upsertAlbum_ids (m : List (String × Album)) (k : String) (base : Album)
    (sc : ℚ) (h : ∀ p ∈ m, (p : String × Album).2.id ≠ "") (hb : base.id ≠ "") :
    ∀ p ∈ upsertAlbum m k base sc, (p : String × Album).2.id ≠ "" := by
  intro p hp
  unfold upsertAlbum at hp
  split at hp
  · rw [List.mem_map] at hp
    obtain ⟨q, hq, he⟩ := hp
    rw [← he]
    split
    · show (bumpAlbum q.2 sc).id ≠ ""
      exact h q hq
    · exact h q hq
  · rcases List.mem_append.mp hp with hm | hm
    · exact h p hm
    · rcases List.mem_singleton.mp hm with rfl
      show (bumpAlbum base sc).id ≠ ""
      exact hb

theorem processTrack_ids (ta tw : ℚ) (p ps : Nat) (m : List (String × Album))
    (idx : Nat) (track : RawTrack)
    (h : ∀ q ∈ m, (q : String × Album).2.id ≠ "") :
    ∀ q ∈ processTrack ta tw p ps m idx track,
    (q : String × Album).2.id ≠ "" := by
  intro q hq
  unfold processTrack at hq
  split at hq
  · exact h q hq
  next alb halb =>
    split at hq
    · exact h q hq
    next idStr hid =>
      split at hq
      · exact h q hq
      · exact upsertAlbum_ids m _ _ _ h
          (show idStr ≠ "" from strTruthy_ne alb.id idStr hid) q hq

theorem gatherPages_ids (env : Env) (tr : String) (opts : GatherOpts) (ta : ℚ) :
    ∀ (pages p : Nat) (m : List (String × Album)),
    (∀ q ∈ m, (q : String × Album).2.id ≠ "") →
    ∀ res, gatherPages env tr opts ta pages p m = .ok res →
    ∀ q ∈ res, (q : String × Album).2.id ≠ "" := by
  intro pages
  induction pages with
  | zero =>
    intro p m h res hres
    injection hres with he
    rw [← he]
    exact h
  | succ n ih =>
    intro p m h res hres
    unfold gatherPages at hres
    split at hres
    next e heq => cases hres
    next items heq =>
      have hfold : ∀ q ∈ items.enum.foldl
          (fun acc pair =>
            processTrack ta opts.timeWeight p opts.pageSize acc pair.1 pair.2)
          m, (q : String × Album).2.id ≠ "" :=
        foldl_preserve (fun mm => ∀ q ∈ mm, (q : String × Album).2.id ≠ "") _
          (fun mm pr hmm =>
            processTrack_ids ta opts.timeWeight p opts.pageSize mm pr.1 pr.2
              hmm)
          items.enum m h
      dsimp only at hres
      split at hres
      · injection hres with he
        rw [← he]
        exact hfold
      · exact ih _ _ hfold res hres

theorem gather_ids (env : Env) (tr : String) (opts : GatherOpts)
    (cands : List Album) (h : gatherTopTrackCandidates env tr opts = .ok cands) :
    ∀ a ∈ cands, a.id ≠ "" := by
  unfold gatherTopTrackCandidates at h
  dsimp only at h
  split at h
  next e heq => cases h
  next m heq =>
    injection h with he
    intro a ha
    rw [← he] at ha
    have ha2 := List.mem_of_mem_take ha
    have ha3 : a ∈ m.map Prod.snd := (mem_sortStable _ a _).mp ha2
    rw [List.mem_map] at ha3
    obtain ⟨q, hq, he2⟩ := ha3
    have hg := gatherPages_ids env tr opts _ opts.pages 0 []
      (by intro q2 hq2; cases hq2) m heq q hq
    rw [← he2]
    exact hg

theorem applyArtistBonus_ids (env : Env) (cands : List Album)
    (h : ∀ a ∈ cands, a.id ≠ "") :
    ∀ a ∈ applyArtistBonus env cands, a.id ≠ "" := by
  intro a ha
  unfold applyArtistBonus at ha
  split at ha
  · exact h a ha
  next aitems heq =>
    rw [List.mem_map] at ha
    obtain ⟨q, hq, he⟩ := ha
    rw [← he]
    dsimp only
    split
    · split
      · exact h q hq
      · exact h q hq
    · exact h q hq

theorem enrichAlbum_id (env : Env) (a : Album) :
    (enrichAlbum env a).id = a.id := by
  unfold enrichAlbum
  split
  · rfl
  · split
    · rfl
    · rfl

theorem primaryPhase_good (env : Env) (rr : String) (limit : Nat)
    (pr : List Album × Result) (h : primaryPhase env rr limit = .ok pr) :
    TopsNonempty pr.2 ∧ UniqueTops pr.2 ∧ OthersOk pr.2 := by
  unfold primaryPhase at h
  dsimp only at h
  split at h
  next e heq => cases h
  next candidates heq =>
    injection h with he
    have hids : ∀ a ∈ enrichWithDominant env
        ((sortByScoreDesc ((applyArtistBonus env candidates).map
          (fun a => { a with score := min a.score 3 }))).take 35),
        a.id ≠ "" := by
      intro a ha
      obtain ⟨b, hb, he2⟩ := List.mem_map.mp ha
      rw [← he2, enrichAlbum_id]
      have hb2 := List.mem_of_mem_take hb
      have hb3 : b ∈ (applyArtistBonus env candidates).map
          (fun a => { a with score := min a.score 3 }) :=
        (mem_sortStable _ b _).mp hb2
      obtain ⟨c0, hc0, he3⟩ := List.mem_map.mp hb3
      rw [← he3]
      show c0.id ≠ ""
      exact applyArtistBonus_ids env candidates
        (gather_ids env rr _ candidates heq) c0 hc0
    have hTN0 : TopsNonempty (pickPrimary (strictnessForRange rr) rr
        (enrichWithDominant env
          ((sortByScoreDesc ((applyArtistBonus env candidates).map
            (fun a => { a with score := min a.score 3 }))).take 35))) := by
      intro c t htc
      have htc2 : pickTopForColor
          (sortByStrength (bucketListFor (enrichWithDominant env
            ((sortByScoreDesc ((applyArtistBonus env candidates).map
              (fun a => { a with score := min a.score 3 }))).take 35)) c))
          c (strictnessForRange rr).pickWindow
          (rr ++ ":" ++ colorName c ++ ":primary")
          (strictnessForRange rr).dominanceMargin = some t := htc
      have hmem := pickTopForColor_mem _ _ _ _ _ _ htc2
      have hm2 := (mem_sortStable _ t _).mp hmem
      have hm3 := (List.mem_filter.mp hm2).1
      exact hids t hm3
    have hOO0 : OthersOk (pickPrimary (strictnessForRange rr) rr
        (enrichWithDominant env
          ((sortByScoreDesc ((applyArtistBonus env candidates).map
            (fun a => { a with score := min a.score 3 }))).take 35))) := by
      intro c t htc x hx
      have htc2 : pickTopForColor
          (sortByStrength (bucketListFor (enrichWithDominant env
            ((sortByScoreDesc ((applyArtistBonus env candidates).map
              (fun a => { a with score := min a.score 3 }))).take 35)) c))
          c (strictnessForRange rr).pickWindow
          (rr ++ ":" ++ colorName c ++ ":primary")
          (strictnessForRange rr).dominanceMargin = some t := htc
      have hx2 : x ∈ ((sortByStrength (bucketListFor (enrichWithDominant env
          ((sortByScoreDesc ((applyArtistBonus env candidates).map
            (fun a => { a with score := min a.score 3 }))).take 35)) c)).filter
          (fun y => match pickTopForColor
            (sortByStrength (bucketListFor (enrichWithDominant env
              ((sortByScoreDesc ((applyArtistBonus env candidates).map
                (fun a => { a with score := min a.score 3 }))).take 35)) c))
            c (strictnessForRange rr).pickWindow
            (rr ++ ":" ++ colorName c ++ ":primary")
            (strictnessForRange rr).dominanceMargin with
          | some t0 => decide (y.id ≠ t0.id)
          | none => true)).take 6 := hx
      have hx3 := List.mem_of_mem_take hx2
      have hx4 := (List.mem_filter.mp hx3).2
      rw [htc2] at hx4
      exact of_decide_eq_true hx4
    rw [← he]
    dsimp only
    exact ⟨enforce_preserves_TopsNonempty _ hTN0, enforce_UniqueTops _ hTN0,
      enforce_preserves_OthersOk _ hOO0⟩

/-! ## Stage-local failure handling -/

theorem assignFold_id (pickF : Result → Color → Option Album) (tag : String)
    (hnone : ∀ r c, pickF r c = none) :
    ∀ (cs : List Color) (st : Result × BByF),
    assignFoldF pickF tag cs st = st := by
  intro cs
  induction cs with
  | nil => intro st; rfl
  | cons x rest ih =>
    intro st
    have hstep : assignStep pickF tag st x = st := by
      simp [assignStep, hnone]
    show assignFoldF pickF tag rest (assignStep pickF tag st x) = st
    rw [hstep]
    exact ih st

theorem savedStage_id (env : Env) (minConf : ℚ) (maxToScan : Nat)
    (tag : String) (st : Result × BByF)
    (hsa : ∀ lim off, ∃ e, env.savedAlbums lim off = .error e) :
    savedStage env minConf maxToScan tag st = st := by
  unfold savedStage
  apply assignFold_id
  intro r c
  show catchNull (findSavedPages env c (getUsedAlbumIds r) minConf
    ((maxToScan + 49) / 50) 0 none) = none
  cases hp : (maxToScan + 49) / 50 with
  | zero => rfl
  | succ n =>
    obtain ⟨e, he⟩ := hsa 50 (0 * 50)
    unfold findSavedPages
    rw [he]
    rfl

theorem artistStage_id (env : Env) (minConf : ℚ)
    (topArtistsN albumsPerArtist cap : Nat) (tag : String) (st : Result × BByF)
    (hta : ∀ n, ∃ e, env.topArtists n = .error e) :
    artistStage env minConf topArtistsN albumsPerArtist cap tag st = st := by
  unfold artistStage
  apply assignFold_id
  intro r c
  obtain ⟨e, he⟩ := hta topArtistsN
  unfold findArtistBackfillForColor
  rw [he]
  rfl

theorem enrichAlbum_caught (env : Env) (a : Album)
    (hdom : ∀ u, ∃ e, env.dominant u = .error e) :
    enrichAlbum env a = { a with hex := none, confidence := some 0 } := by
  unfold enrichAlbum
  cases himg : a.image with
  | none => rfl
  | some url =>
    dsimp only
    obtain ⟨e, he⟩ := hdom url
    rw [he]

theorem wideTopBlock_gather_error (env : Env) (S : Strictness) (rr : String)
    (ar : List String) (st : Result × BByF) (e : String)
    (h : gatherTopTrackCandidates env rr
      { pages := S.topTrackPagesWide + 2, pageSize := 50, maxUnique := 340,
        timeWeight := 1 } = .error e) :
    wideTopBlock env S rr ar st = .error e := by
  unfold wideTopBlock
  rw [h]

/-! ## Concrete environments exercising the compute body -/

/-- Every non-primary endpoint is down; the requested-range top tracks are
an empty library. -/
def envOk : Env :=
  { topTracks := fun _ _ _ => .ok [],
    topArtists := fun _ => .error "artists down",
    artistAlbums := fun _ _ => .error "albums down",
    savedAlbums := fun _ _ => .error "saved down",
    dominant := fun _ => .error "sampler down" }

/-- Same, except the 50-a-page top-track fetches used by the wide and
last-resort gathers reject. -/
def envBad : Env :=
  { envOk with
    topTracks := fun _ limit _ => if limit = 50 then .error "boom" else .ok [] }

def outOk : Output :=
  match computeResultsForRangeBody envOk "short_term" 10 [] with
  | .ok o => o
  | .error _ => default

def outOk2 : Output :=
  match computeResultsForRangeBody envOk "long_term" 10 [] with
  | .ok o => o
  | .error _ => default

/-! ## Claims C1, C2, C3, C9 -/

/-- C1: every result the compute body returns has globally unique non-null
tops: no catalog id is the top of two different buckets. -/
theorem C1_unique_tops (env : Env) (rr : String) (limit : Nat)
    (ar : List String) (out : Output)
    (hout : computeResultsForRangeBody env rr limit ar = .ok out) :
    UniqueTops out.result := by
  unfold computeResultsForRangeBody at hout
  dsimp only at hout
  split at hout
  next e heq => cases hout
  next pr heq =>
    split at hout
    next e heq2 => cases hout
    next bf heq2 =>
      injection hout with he
      have hpg := primaryPhase_good env rr limit pr heq
      have hbf := backfillPhase_inv env (strictnessForRange rr) rr _ pr.2 bf
        heq2 hpg.1 hpg.2.1 hpg.2.2
      rw [← he]
      exact hbf.2.1

theorem C1_unique_tops_witness :
    computeResultsForRangeBody envOk "short_term" 10 [] = .ok outOk ∧
    UniqueTops outOk.result :=
  ⟨by with_unfolding_all rfl,
   C1_unique_tops envOk "short_term" 10 [] outOk (by with_unfolding_all rfl)⟩

/-- C2 (amended): failures of the saved-album and artist-album lookups and
of the color sampler are swallowed locally — the S1/S2 stages leave the
state untouched and enrichment yields a null hex — but the top-track
gather calls inside the S4 wide block carry no catch, so their rejection
propagates out of the stage. -/
theorem C2_stage_error_handling :
    (∀ (env : Env) (minConf : ℚ) (maxToScan : Nat) (tag : String)
       (st : Result × BByF),
       (∀ lim off, ∃ e, env.savedAlbums lim off = .error e) →
       savedStage env minConf maxToScan tag st = st) ∧
    (∀ (env : Env) (minConf : ℚ) (aN apA cap : Nat) (tag : String)
       (st : Result × BByF),
       (∀ n, ∃ e, env.topArtists n = .error e) →
       artistStage env minConf aN apA cap tag st = st) ∧
    (∀ (env : Env) (a : Album),
       (∀ u, ∃ e, env.dominant u = .error e) →
       enrichAlbum env a = { a with hex := none, confidence := some 0 }) ∧
    (∀ (env : Env) (S : Strictness) (rr : String) (ar : List String)
       (st : Result × BByF) (e : String),
       gatherTopTrackCandidates env rr
         { pages := S.topTrackPagesWide + 2, pageSize := 50, maxUnique := 340,
           timeWeight := 1 } = .error e →
       wideTopBlock env S rr ar st = .error e) :=
  ⟨fun env minConf maxToScan tag st h =>
     savedStage_id env minConf maxToScan tag st h,
   fun env minConf aN apA cap tag st h =>
     artistStage_id env minConf aN apA cap tag st h,
   fun env a h => enrichAlbum_caught env a h,
   fun env S rr ar st e h => wideTopBlock_gather_error env S rr ar st e h⟩

/-- C2 counterexample to the original claim: with a healthy primary phase
but a rejecting 50-a-page top-track endpoint, the stage-local failure of
the S4 wide gather rejects the whole computation instead of being treated
as "no match from that source". -/
theorem C2_stage_failure_escalates_cex :
    (primaryPhase envBad "short_term" 10).isOk = true ∧
    computeResultsForRangeBody envBad "short_term" 10 [] = .error "boom" :=
  ⟨by with_unfolding_all rfl, by with_unfolding_all rfl⟩

/-- C3: a bucket whose top is non-null is frozen: each backfill stage
leaves it untouched (they assign only to buckets missing a top), and the
final uniqueness pass of the backfill phase returns every primary-filled
bucket unchanged. -/
theorem C3_once_filled_frozen :
    (∀ (env : Env) (minConf : ℚ) (maxToScan : Nat) (tag : String)
       (st : Result × BByF) (c : Color) (t : Album),
       (st.1 c).top = some t →
       (savedStage env minConf maxToScan tag st).1 c = st.1 c) ∧
    (∀ (env : Env) (minConf : ℚ) (aN apA cap : Nat) (tag : String)
       (st : Result × BByF) (c : Color) (t : Album),
       (st.1 c).top = some t →
       (artistStage env minConf aN apA cap tag st).1 c = st.1 c) ∧
    (∀ (pool : List Album) (minConf : ℚ) (tag : String) (st : Result × BByF)
       (c : Color) (t : Album),
       (st.1 c).top = some t →
       (poolAssignStage pool minConf tag st).1 c = st.1 c) ∧
    (∀ (env : Env) (S : Strictness) (rr : String) (ar : List String)
       (st st3 : Result × BByF) (c : Color) (t : Album),
       widenGroup env S rr ar st = .ok st3 → (st.1 c).top = some t →
       st3.1 c = st.1 c) ∧
    (∀ (env : Env) (rr : String) (ar : List String) (st st4 : Result × BByF)
       (c : Color) (t : Album),
       lastResortStage env rr ar st = .ok st4 → (st.1 c).top = some t →
       st4.1 c = st.1 c) ∧
    (∀ (env : Env) (S : Strictness) (rr : String) (ar : List String)
       (result : Result) (bf : Result × BByF) (c : Color) (t : Album),
       TopsNonempty result → UniqueTops result → OthersOk result →
       backfillPhase env S rr ar result = .ok bf → (result c).top = some t →
       bf.1 c = result c) :=
  ⟨fun env minConf maxToScan tag st c t h =>
     (savedStage_untouched env minConf maxToScan tag st c t h).1,
   fun env minConf aN apA cap tag st c t h =>
     (artistStage_untouched env minConf aN apA cap tag st c t h).1,
   fun pool minConf tag st c t h =>
     (poolAssignStage_untouched pool minConf tag st c t h).1,
   fun env S rr ar st st3 c t hres h =>
     (widenGroup_untouched env S rr ar st st3 c t hres h).1,
   fun env rr ar st st4 c t hres h =>
     (lastResortStage_untouched env rr ar st st4 c t hres h).1,
   fun env S rr ar result bf c t hTN hUT hOO hres htc =>
     backfillPhase_untouched env S rr ar result bf c t hres hTN hUT hOO htc⟩

/-- C9: in every returned result no bucket's others list repeats that
bucket's top id, and every backfilled bucket has an empty others list. -/
theorem C9_backfilled_others_empty (env : Env) (rr : String) (limit : Nat)
    (ar : List String) (out : Output)
    (hout : computeResultsForRangeBody env rr limit ar = .ok out) :
    OthersOk out.result ∧
    (∀ c, (out.backfilled_by c).isSome → (out.result c).others = []) := by
  unfold computeResultsForRangeBody at hout
  dsimp only at hout
  split at hout
  next e heq => cases hout
  next pr heq =>
    split at hout
    next e heq2 => cases hout
    next bf heq2 =>
      injection hout with he
      have hpg := primaryPhase_good env rr limit pr heq
      have hbf := backfillPhase_inv env (strictnessForRange rr) rr _ pr.2 bf
        heq2 hpg.1 hpg.2.1 hpg.2.2
      rw [← he]
      exact ⟨hbf.2.2.1, fun c hc => hbf.2.2.2 c hc⟩

theorem C9_backfilled_others_empty_witness :
    computeResultsForRangeBody envOk "long_term" 10 [] = .ok outOk2 ∧
    (OthersOk outOk2.result ∧
     (∀ c, (outOk2.backfilled_by c).isSome → (outOk2.result c).others = [])) :=
  ⟨by with_unfolding_all rfl,
   C9_backfilled_others_empty envOk "long_term" 10 [] outOk2
     (by with_unfolding_all rfl)⟩
